import Mathlib

/-!
Verification of `rsa_optimal_exp_core.py` / `rsa_optimal_exp_fitting.py`
(repository `prag_net`), a recursive Bayesian pragmatics (RSA) engine.

Embedding conventions, used throughout this file:

* The Python code stores every probability table in log space (natural
  logarithms, with `-inf` for probability zero, and `+inf` rejected by
  validation).  Exponentiation is an order isomorphism from
  `[-inf, +inf)` onto `[0, +inf)`, so we represent each log-space number
  by the nonnegative rational it denotes in linear space: the entry `x`
  of a Lean table stands for the Python entry `log x`, with `0`
  standing for `-inf`.  Under this representation
  - elementwise addition of log tables becomes elementwise
    multiplication,
  - `log_M_product` (a log-sum-exp contraction) becomes an ordinary
    matrix product,
  - `log_column_normalize` (subtracting the column log-sum-exp) becomes
    division of each column by its sum,
  - column maxima, ties, and comparisons are preserved.
* 2-D arrays handled by the numerics helpers are given column-major:
  a matrix is the list of its columns, because the helpers operate down
  each column (`axis=0`).  Agent tables keep the DataFrame orientation
  and are stated row-major where noted.
* Python exceptions are modelled by `Except PyErr`; the constructor
  mirrors the exception class and carries the message string (messages
  are reproduced without f-string interpolation of runtime values).
* The code runs on IEEE floats; the embedding computes in exact rational
  arithmetic, which is the idealisation the specification describes.
-/

set_option maxRecDepth 4000

namespace PragNet

/-- Python exception model: constructors mirror the exception classes the
source raises, each carrying its message string. -/
inductive PyErr where
  | valueError (m : String)
  | typeError (m : String)
  | runtimeError (m : String)
  | nameError (m : String)
  | attributeError (m : String)
deriving Repr, DecidableEq

deriving instance DecidableEq for Except

/-- Python `str(e)` as interpolated into the f-strings of the except blocks:
the message of the exception. -/
def PyErr.msg : PyErr → String
  | .valueError m => m
  | .typeError m => m
  | .runtimeError m => m
  | .nameError m => m
  | .attributeError m => m

/-- The `alpha` argument accepted by `log_column_softmax` and the speaker
classes: a Python float or a Python string (the code accepts exactly the
string "determ"). -/
inductive PyAlpha where
  | fl (a : ℚ)
  | str (s : String)
deriving Repr, DecidableEq

/-- One finite (not `-inf`) cell of a log-space score matrix, in linear-space
representation.  `lin v` stands for the log-space value `log v` (a cell of a
purely informative or purely persuasive utility, or of a plain input matrix);
`mix2 a b` stands for `beta * log a + (1 - beta) * log b`, the cell of a
mixed utility at the matrix-level weight `beta`
(`_compute_utility`, else-branch). -/
inductive UCell where
  | lin (v : ℚ)
  | mix2 (a b : ℚ)
deriving Repr, DecidableEq

/-- Integer power on rationals by explicit recursion (kernel-evaluable;
agrees with `zpow`: a negative exponent inverts the positive power, and a
zero base stays zero since `0⁻¹ = 0` in `ℚ`). -/
def powIntQ (x : ℚ) : ℤ → ℚ
  | .ofNat n => x ^ n
  | .negSucc n => (x ^ (n + 1))⁻¹

/-- Comparison key of a cell: the cell at weight `beta` denotes the log-space
value `log (key) / beta.den`, so on any one matrix (fixed `beta`) the key is
a strictly monotone image of the cell value, and key comparisons decide the
float comparisons (`np.max`, `X == col_max`) of the source exactly.
For `lin v`: `log (v ^ den) / den = log v`.  For `mix2 a b`:
`log (a ^ num * b ^ (den - num)) / den = (num/den) * log a +
(1 - num/den) * log b`. -/
def UCell.key (beta : ℚ) : UCell → ℚ
  | .lin v => powIntQ v (beta.den : ℤ)
  | .mix2 a b => powIntQ a beta.num * powIntQ b ((beta.den : ℤ) - beta.num)

/-- One entry of the log-probability matrix returned by
`log_column_softmax`, linear-space.  `zero` is probability 0 (`-inf` in log
space); `q v` is the exact probability `v` (the "determ" branch returns
`-log(count)`, i.e. probability `1/count`); `soft a beta cell col` is the
symbolic softmax probability `exp(a*u(cell)) / sum over col of exp(a*u(c))`
of the float-alpha branch, kept symbolic because it is transcendental (no
claim inspects its numeric value, only that it is nonzero). -/
inductive PEntry where
  | zero
  | q (v : ℚ)
  | soft (a beta : ℚ) (cell : UCell) (col : List (Option UCell))
deriving Repr, DecidableEq

/-- `np.max` down one column of finite-or-`-inf` cells: `none` when the whole
column is `-inf` (the degenerate case every branch of `log_column_softmax`
rejects), otherwise the maximal comparison key. -/
def colMaxKey (beta : ℚ) : List (Option UCell) → Option ℚ
  | [] => none
  | none :: rest => colMaxKey beta rest
  | some u :: rest =>
    match colMaxKey beta rest with
    | none => some (u.key beta)
    | some k => some (max (u.key beta) k)

/-- Sequence a fallible computation over a list (explicit recursion so that
proofs can unfold it; semantically `mapM` for `Except`). -/
def exceptCols (f : α → Except PyErr β) : List α → Except PyErr (List β)
  | [] => .ok []
  | c :: cs =>
    match f c, exceptCols f cs with
    | .error e, _ => .error e
    | .ok _, .error e => .error e
    | .ok r, .ok rs => .ok (r :: rs)

/-- The hard-argmax ("determ") branch of `log_column_softmax` on one column
(`rsa_optimal_exp_core.py:246-253`): reject an all-`-inf` column, otherwise
split mass `1/count` over the rows attaining the column maximum and give
`-inf` (probability 0) to every other row. -/
def softmaxColDeterm (beta : ℚ) (col : List (Option UCell)) :
    Except PyErr (List PEntry) :=
  match colMaxKey beta col with
  | none => .error (.valueError ("Cannot compute softmax: some columns are all -inf"))
  | some mk =>
    let k : ℕ := col.countP (fun c =>
      match c with
      | some u => decide (u.key beta = mk)
      | none => false)
    .ok (col.map (fun c =>
      match c with
      | none => PEntry.zero
      | some u => if u.key beta = mk then PEntry.q (1 / (k : ℚ)) else PEntry.zero))

/-- The float-alpha branch of `log_column_softmax` on one column
(`rsa_optimal_exp_core.py:255-282`): reject an all-`-inf` column, map `-inf`
to `-inf` (`alpha*(-inf) - logsumexp = -inf`) and every finite cell to its
symbolic softmax probability.  The `precise = True` variant differs from the
fast variant only by the enlarged shift margin, which cancels exactly in
exact arithmetic, so both compute the same entries. -/
def softmaxColFloat (a beta : ℚ) (col : List (Option UCell)) :
    Except PyErr (List PEntry) :=
  if (colMaxKey beta col).isNone then
    .error (.valueError ("Cannot compute softmax: some columns are all -inf"))
  else
    .ok (col.map (fun c =>
      match c with
      | none => PEntry.zero
      | some u => PEntry.soft a beta u col))

/-- `log_column_softmax(X, alpha, precise)` over a matrix of
finite-or-`-inf` cells (list of columns), with the argument validation of
`rsa_optimal_exp_core.py:239-243`: `alpha` must be a float or the string
"determ", and a float `alpha` must be positive. -/
def logColumnSoftmaxCore (beta : ℚ) (cols : List (List (Option UCell)))
    (alpha : PyAlpha) (_precise : Bool) : Except PyErr (List (List PEntry)) :=
  match alpha with
  | .str s =>
    if s = "determ" then exceptCols (softmaxColDeterm beta) cols
    else .error (.typeError ("alpha must be a float or the string determ"))
  | .fl a =>
    if a ≤ 0 then .error (.valueError ("alpha must be positive when using softmax"))
    else exceptCols (softmaxColFloat a beta) cols

/-- A column of plain log values (linear-space rationals) as a column of
cells: `0` (denoting `-inf`) becomes `none`, a positive value a `lin` cell. -/
def toUCol (c : List ℚ) : List (Option UCell) :=
  c.map (fun v => if v = 0 then none else some (UCell.lin v))

/-- `log_column_softmax` on a plain 2-D matrix (list of columns, linear-space
representation).  The weight parameter of the cell encoding is irrelevant for
`lin` cells; `0` is passed (its key is the identity). -/
def log_column_softmax (cols : List (List ℚ)) (alpha : PyAlpha)
    (precise : Bool) : Except PyErr (List (List PEntry)) :=
  logColumnSoftmaxCore 0 (cols.map toUCol) alpha precise

/-- `log_column_normalize` on one column (linear space): an all-`-inf`
column is warned about and returned unchanged (the code substitutes `0` for
its column log-sum-exp, so the subtraction is a no-op and the column stays
all `-inf`, never NaN); any other column is divided by its sum (subtraction
of the column log-sum-exp). -/
def normalizeCol (c : List ℚ) : List ℚ × Bool :=
  if c.all (fun x => x = 0) then (c, true)
  else (c.map (fun x => x / c.sum), false)

/-- `log_column_normalize(LX, precise)` (`rsa_optimal_exp_core.py:116-199`),
matrix as list of columns, linear-space.  Returns the normalized matrix and
whether the non-fatal "Input has column of all -inf" `UserWarning` fired.
In exact arithmetic the `precise` branch (spacious shift plus `fsum`)
computes the same values as the fast branch, so the flag does not change the
result. -/
def log_column_normalize (cols : List (List ℚ)) (_precise : Bool) :
    List (List ℚ) × Bool :=
  ((cols.map normalizeCol).map Prod.fst, (cols.map normalizeCol).any Prod.snd)

/-- The maximum entry of a (nonnegative) linear-space column, seeded with 0:
for a column with at least one positive entry this is the column maximum,
i.e. the exponential of the log-space column maximum. -/
def colSup (c : List ℚ) : ℚ := c.foldr max 0

/-! Supporting lemmas about the column combinators. -/

theorem exceptCols_error_of_mem {f : α → Except PyErr β} {cols : List α} {c : α}
    {e : PyErr} (hmem : c ∈ cols) (herr : f c = .error e) :
    ∃ e', exceptCols f cols = .error e' := by
  induction cols with
  | nil => cases hmem
  | cons d ds ih =>
    rcases List.mem_cons.mp hmem with h | h
    · subst h
      refine ⟨e, ?_⟩
      simp [exceptCols, herr]
    · rcases ih h with ⟨e', he'⟩
      cases hd : f d with
      | error e2 => exact ⟨e2, by simp [exceptCols, hd]⟩
      | ok r => exact ⟨e', by simp [exceptCols, hd, he']⟩

theorem exceptCols_ok_forall₂ {f : α → Except PyErr β} {cols : List α}
    {out : List β} (h : exceptCols f cols = .ok out) :
    List.Forall₂ (fun c oc => f c = .ok oc) cols out := by
  induction cols generalizing out with
  | nil =>
    simp only [exceptCols] at h
    cases h
    exact List.Forall₂.nil
  | cons d ds ih =>
    simp only [exceptCols] at h
    cases hd : f d with
    | error e => rw [hd] at h; cases h
    | ok r =>
      rw [hd] at h
      cases hds : exceptCols f ds with
      | error e => rw [hds] at h; cases h
      | ok rs =>
        rw [hds] at h
        cases h
        exact List.Forall₂.cons hd (ih hds)

theorem colSup_nonneg (c : List ℚ) : 0 ≤ colSup c := by
  induction c with
  | nil => simp [colSup]
  | cons x xs ih => simp only [colSup, List.foldr] at *; exact le_max_of_le_right ih

theorem le_colSup_of_mem {c : List ℚ} {x : ℚ} (h : x ∈ c) : x ≤ colSup c := by
  induction c with
  | nil => cases h
  | cons y ys ih =>
    rcases List.mem_cons.mp h with h | h
    · subst h; exact le_max_left _ _
    · exact le_trans (ih h) (le_max_right _ _)

theorem colSup_pos {c : List ℚ} {x : ℚ} (hx : x ∈ c) (hpos : 0 < x) :
    0 < colSup c :=
  lt_of_lt_of_le hpos (le_colSup_of_mem hx)

/-- At weight 0 the key of a plain cell is the cell value itself. -/
theorem key_lin_zero (v : ℚ) : (UCell.lin v).key 0 = v := by
  show powIntQ v (((0:ℚ).den : ℕ) : ℤ) = v
  rw [show (0:ℚ).den = 1 from rfl]
  show v ^ (1:ℕ) = v
  exact pow_one v

theorem colSup_cons (y : ℚ) (ys : List ℚ) :
    colSup (y :: ys) = max y (colSup ys) := rfl

theorem colSup_eq_zero_of_all_zero {c : List ℚ} (h : ∀ x ∈ c, x = 0) :
    colSup c = 0 := by
  induction c with
  | nil => rfl
  | cons y ys ih =>
    rw [colSup_cons, h y (List.mem_cons_self _ _),
      ih (fun x hx => h x (List.mem_cons_of_mem _ hx)), max_self]

theorem colMaxKey_toUCol_none {c : List ℚ} (h : ∀ x ∈ c, x = 0) :
    colMaxKey 0 (toUCol c) = none := by
  induction c with
  | nil => rfl
  | cons y ys ih =>
    have hy : y = 0 := h y (List.mem_cons_self _ _)
    simp only [toUCol, List.map, if_pos hy, colMaxKey]
    exact ih (fun x hx => h x (List.mem_cons_of_mem _ hx))

theorem exists_pos_of_not_all_zero {c : List ℚ} (hnn : ∀ x ∈ c, 0 ≤ x)
    (h : ¬ ∀ x ∈ c, x = 0) : ∃ x ∈ c, 0 < x := by
  push_neg at h
  rcases h with ⟨x, hx, hx0⟩
  exact ⟨x, hx, lt_of_le_of_ne (hnn x hx) (Ne.symm hx0)⟩

/-- `np.max` of a column of plain linear-space values: when the column has a
positive entry it is `colSup`. -/
theorem colMaxKey_toUCol {c : List ℚ} (hnn : ∀ x ∈ c, 0 ≤ x)
    (hpos : ∃ x ∈ c, 0 < x) : colMaxKey 0 (toUCol c) = some (colSup c) := by
  induction c with
  | nil => rcases hpos with ⟨x, hx, _⟩; cases hx
  | cons y ys ih =>
    have hynn : 0 ≤ y := hnn y (List.mem_cons_self _ _)
    have hysnn : ∀ x ∈ ys, 0 ≤ x := fun x hx => hnn x (List.mem_cons_of_mem _ hx)
    by_cases hy : y = 0
    · have hpos' : ∃ x ∈ ys, 0 < x := by
        rcases hpos with ⟨x, hx, hxpos⟩
        rcases List.mem_cons.mp hx with h | h
        · rw [h, hy] at hxpos; cases lt_irrefl _ hxpos
        · exact ⟨x, h, hxpos⟩
      simp only [toUCol, List.map, if_pos hy, colMaxKey]
      rw [show List.map (fun v => if v = 0 then none else some (UCell.lin v)) ys
          = toUCol ys from rfl, ih hysnn hpos', colSup_cons, hy,
        max_eq_right (colSup_nonneg ys)]
    · have hypos : 0 < y := lt_of_le_of_ne hynn (Ne.symm hy)
      simp only [toUCol, List.map, if_neg hy, colMaxKey]
      rw [show List.map (fun v => if v = 0 then none else some (UCell.lin v)) ys
          = toUCol ys from rfl]
      by_cases hys : ∀ x ∈ ys, x = 0
      · rw [colMaxKey_toUCol_none hys, colSup_cons,
          colSup_eq_zero_of_all_zero hys, max_eq_left hynn, key_lin_zero]
      · rw [ih hysnn (exists_pos_of_not_all_zero hysnn hys), colSup_cons,
          key_lin_zero]

/-- The "determ" branch on a column of plain values with a positive entry:
mass `1/count` on the rows attaining the column maximum, zero elsewhere. -/
theorem softmaxColDeterm_toUCol {c : List ℚ} (hnn : ∀ x ∈ c, 0 ≤ x)
    (hpos : ∃ x ∈ c, 0 < x) :
    softmaxColDeterm 0 (toUCol c) =
      .ok (c.map (fun x => if x = colSup c
        then PEntry.q (1 / (c.countP (fun y => decide (y = colSup c)) : ℚ))
        else PEntry.zero)) := by
  have hsup : 0 < colSup c := by
    rcases hpos with ⟨x, hx, hxpos⟩; exact colSup_pos hx hxpos
  unfold softmaxColDeterm
  rw [colMaxKey_toUCol hnn hpos]
  have hcount : (toUCol c).countP (fun cell =>
      match cell with
      | some u => decide (u.key 0 = colSup c)
      | none => false) = c.countP (fun y => decide (y = colSup c)) := by
    unfold toUCol
    rw [List.countP_map]
    apply List.countP_congr
    intro x hx
    by_cases hx0 : x = 0
    · simp only [Function.comp, if_pos hx0]
      have : ¬ (x = colSup c) := by rw [hx0]; exact fun h => absurd h.symm (ne_of_gt hsup)
      simp [this]
    · simp only [Function.comp, if_neg hx0, key_lin_zero]
  have hmap : (toUCol c).map (fun cell =>
      match cell with
      | none => PEntry.zero
      | some u => if u.key 0 = colSup c
        then PEntry.q (1 / ((toUCol c).countP (fun cell =>
          match cell with
          | some u => decide (u.key 0 = colSup c)
          | none => false) : ℚ))
        else PEntry.zero) = c.map (fun x => if x = colSup c
        then PEntry.q (1 / (c.countP (fun y => decide (y = colSup c)) : ℚ))
        else PEntry.zero) := by
    rw [show toUCol c = c.map (fun v => if v = 0 then none else some (UCell.lin v))
        from rfl, List.map_map]
    apply List.map_congr_left
    intro x hx
    by_cases hx0 : x = 0
    · have hne : ¬ (x = colSup c) := by
        rw [hx0]; exact fun h => absurd h.symm (ne_of_gt hsup)
      simp only [Function.comp, if_pos hx0, if_neg hne]
    · simp only [Function.comp, if_neg hx0, key_lin_zero]
      rw [← show toUCol c = c.map (fun v => if v = 0 then none else some (UCell.lin v))
          from rfl, hcount]
  simp only [← hmap]

/-- C2: with `alpha = "determ"` and a matrix with no NaN and no positive
infinity (here: columns of nonnegative linear-space values),
`log_column_softmax` puts, in each column, mass `1/k` (log `1/k` in log
space) on exactly the `k` rows attaining the column maximum and zero
(`-inf`) on every other row; and for every alpha, a column that is entirely
`-inf` (all zero in linear space) makes the call raise instead of return. -/
theorem c2_log_column_softmax_determ_and_reject (cols : List (List ℚ))
    (hnn : ∀ c ∈ cols, ∀ x ∈ c, 0 ≤ x) :
    (∀ out, log_column_softmax cols (PyAlpha.str "determ") false = Except.ok out →
      List.Forall₂ (fun c oc => oc = c.map (fun x =>
        if x = colSup c
        then PEntry.q (1 / (c.countP (fun y => decide (y = colSup c)) : ℚ))
        else PEntry.zero)) cols out)
    ∧ (∀ alpha precise, (∃ c ∈ cols, ∀ x ∈ c, x = 0) →
      ∃ e, log_column_softmax cols alpha precise = Except.error e) := by
  constructor
  · intro out hout
    unfold log_column_softmax logColumnSoftmaxCore at hout
    simp only [if_pos rfl] at hout
    induction cols generalizing out with
    | nil =>
      simp only [List.map, exceptCols] at hout
      cases hout
      exact List.Forall₂.nil
    | cons c cs ih =>
      simp only [List.map, exceptCols] at hout
      cases hc : softmaxColDeterm 0 (toUCol c) with
      | error e => rw [hc] at hout; cases hout
      | ok r =>
        rw [hc] at hout
        cases hcs : exceptCols (softmaxColDeterm 0) (cs.map toUCol) with
        | error e => rw [hcs] at hout; cases hout
        | ok rs =>
          rw [hcs] at hout
          cases hout
          have hcnn : ∀ x ∈ c, 0 ≤ x := hnn c (List.mem_cons_self _ _)
          have hcpos : ∃ x ∈ c, 0 < x := by
            by_cases hz : ∀ x ∈ c, x = 0
            · rw [show softmaxColDeterm 0 (toUCol c) =
                Except.error (.valueError ("Cannot compute softmax: some columns are all -inf"))
                from by unfold softmaxColDeterm; rw [colMaxKey_toUCol_none hz]] at hc
              cases hc
            · exact exists_pos_of_not_all_zero hcnn hz
          have := softmaxColDeterm_toUCol hcnn hcpos
          rw [this] at hc
          cases hc
          exact List.Forall₂.cons rfl
            (ih (fun d hd => hnn d (List.mem_cons_of_mem _ hd)) rs hcs)
  · intro alpha precise hz
    rcases hz with ⟨c, hc, hcz⟩
    unfold log_column_softmax logColumnSoftmaxCore
    cases alpha with
    | str s =>
      by_cases hs : s = "determ"
      · subst hs
        simp only [if_pos rfl]
        exact exceptCols_error_of_mem (List.mem_map_of_mem toUCol hc)
          (show softmaxColDeterm 0 (toUCol c) =
            Except.error (.valueError ("Cannot compute softmax: some columns are all -inf"))
            from by unfold softmaxColDeterm; rw [colMaxKey_toUCol_none hcz])
      · simp only [if_neg hs]
        exact ⟨_, rfl⟩
    | fl a =>
      by_cases ha : a ≤ 0
      · simp only [if_pos ha]
        exact ⟨_, rfl⟩
      · simp only [if_neg ha]
        exact exceptCols_error_of_mem (List.mem_map_of_mem toUCol hc)
          (show softmaxColFloat a 0 (toUCol c) =
            Except.error (.valueError ("Cannot compute softmax: some columns are all -inf"))
            from by unfold softmaxColFloat; rw [colMaxKey_toUCol_none hcz]; rfl)

/-- Witness for C2 at a concrete matrix: one column with a two-way tie at
the maximum and one all-zero (all-`-inf`) column. -/
theorem c2_witness :
    (∀ c ∈ ([[0, 2, 2, 1], [0, 0]] : List (List ℚ)), ∀ x ∈ c, 0 ≤ x)
    ∧ ((∀ out, log_column_softmax ([[0, 2, 2, 1], [0, 0]] : List (List ℚ))
          (PyAlpha.str "determ") false = Except.ok out →
        List.Forall₂ (fun c oc => oc = c.map (fun x =>
          if x = colSup c
          then PEntry.q (1 / (c.countP (fun y => decide (y = colSup c)) : ℚ))
          else PEntry.zero)) ([[0, 2, 2, 1], [0, 0]] : List (List ℚ)) out)
      ∧ (∀ alpha precise,
          (∃ c ∈ ([[0, 2, 2, 1], [0, 0]] : List (List ℚ)), ∀ x ∈ c, x = 0) →
        ∃ e, log_column_softmax ([[0, 2, 2, 1], [0, 0]] : List (List ℚ))
          alpha precise = Except.error e)) :=
  ⟨by decide, c2_log_column_softmax_determ_and_reject _ (by decide)⟩

theorem sum_map_div (c : List ℚ) (s : ℚ) :
    (c.map (fun x => x / s)).sum = c.sum / s := by
  induction c with
  | nil => simp
  | cons y ys ih => simp [ih, add_div]

theorem sum_pos_of_mem_pos {c : List ℚ} (hnn : ∀ x ∈ c, 0 ≤ x)
    {x : ℚ} (hx : x ∈ c) (hxpos : 0 < x) : 0 < c.sum := by
  induction c with
  | nil => cases hx
  | cons y ys ih =>
    rw [List.sum_cons]
    have hynn : 0 ≤ y := hnn y (List.mem_cons_self _ _)
    have hysnn : ∀ z ∈ ys, 0 ≤ z := fun z hz => hnn z (List.mem_cons_of_mem _ hz)
    rcases List.mem_cons.mp hx with h | h
    · subst h
      exact add_pos_of_pos_of_nonneg hxpos (List.sum_nonneg hysnn)
    · exact add_pos_of_nonneg_of_pos hynn (ih hysnn h)

/-- C7: `log_column_normalize` makes each column with at least one finite
(log-space) entry sum to 1 after exponentiation (exactly, in exact
arithmetic, hence within 1e-9), while an all-`-inf` column triggers the
non-fatal warning and is returned unchanged (still all `-inf`, no NaN)
instead of raising. -/
theorem c7_log_column_normalize (cols : List (List ℚ)) (precise : Bool)
    (hnn : ∀ c ∈ cols, ∀ x ∈ c, 0 ≤ x) :
    List.Forall₂ (fun c oc =>
        ((∃ x ∈ c, 0 < x) → oc.sum = 1)
        ∧ ((∀ x ∈ c, x = 0) → oc = c))
      cols (log_column_normalize cols precise).1
    ∧ ((∃ c ∈ cols, ∀ x ∈ c, x = 0) →
      (log_column_normalize cols precise).2 = true) := by
  constructor
  · unfold log_column_normalize
    simp only [List.map_map]
    induction cols with
    | nil => exact List.Forall₂.nil
    | cons c cs ih =>
      simp only [List.map]
      refine List.Forall₂.cons ?_ (ih (fun d hd => hnn d (List.mem_cons_of_mem _ hd)))
      have hcnn : ∀ x ∈ c, 0 ≤ x := hnn c (List.mem_cons_self _ _)
      constructor
      · intro hpos
        rcases hpos with ⟨x, hx, hxpos⟩
        have hnz : ¬ (c.all (fun x => decide (x = 0)) = true) := by
          simp only [List.all_eq_true, decide_eq_true_eq]
          intro hall
          rw [hall x hx] at hxpos
          exact lt_irrefl _ hxpos
        simp only [Function.comp, normalizeCol]
        rw [if_neg (by simpa using hnz)]
        simp only [sum_map_div]
        exact div_self (ne_of_gt (sum_pos_of_mem_pos hcnn hx hxpos))
      · intro hz
        simp only [Function.comp, normalizeCol]
        rw [if_pos (by simp only [List.all_eq_true, decide_eq_true_eq]; exact hz)]
  · intro hz
    rcases hz with ⟨c, hc, hcz⟩
    unfold log_column_normalize
    simp only [List.any_eq_true]
    refine ⟨normalizeCol c, List.mem_map_of_mem normalizeCol hc, ?_⟩
    unfold normalizeCol
    rw [if_pos (by simp only [List.all_eq_true, decide_eq_true_eq]; exact hcz)]

/-- Witness for C7 at a concrete matrix: one column with finite mass, one
all-`-inf` column. -/
theorem c7_witness :
    (∀ c ∈ ([[1, 3], [0, 0]] : List (List ℚ)), ∀ x ∈ c, 0 ≤ x)
    ∧ (List.Forall₂ (fun c oc =>
          ((∃ x ∈ c, 0 < x) → oc.sum = 1)
          ∧ ((∀ x ∈ c, x = 0) → oc = c))
        ([[1, 3], [0, 0]] : List (List ℚ))
        (log_column_normalize ([[1, 3], [0, 0]] : List (List ℚ)) false).1
      ∧ ((∃ c ∈ ([[1, 3], [0, 0]] : List (List ℚ)), ∀ x ∈ c, x = 0) →
        (log_column_normalize ([[1, 3], [0, 0]] : List (List ℚ)) false).2 = true)) :=
  ⟨by decide, c7_log_column_normalize _ false (by decide)⟩

/-! ## World (`rsa_optimal_exp_core.py:294-884`) -/

/-- Deterministic model of a NumPy pseudo-random generator state.  The
claims at issue concern only (a) that a generator created from an explicit
seed makes the draw a pure function of the seed, and (b) that the
module-level `np.random` generator is shared hidden state; which concrete
pseudo-random function the generator computes is irrelevant, so draws read
the stream counter and advance it. -/
structure Rng where
  stream : ℕ
deriving Repr, DecidableEq

/-- `np.random.default_rng(seed)` for an explicit integer seed: a generator
that is a pure function of the seed. -/
def defaultRng (seed : ℤ) : Rng := ⟨seed.natAbs⟩

/-- `np.random.default_rng(seed)` for `seed : Optional[int]`: with `None`
the generator is built from OS entropy, an external input modelled as the
explicit `osEntropy` argument. -/
def defaultRngOpt (seed : Option ℤ) (osEntropy : ℕ) : Rng :=
  match seed with
  | some s => defaultRng s
  | none => ⟨osEntropy⟩

/-- Model of `rng.choice(a=items, p=weights)`: an item with zero weight is
never drawn; which positive-weight item is drawn is a function of the
generator state, which the draw advances.  Returns `none` when no item has
positive weight (NumPy raises there). -/
def rngChoiceWeighted (r : Rng) (items : List α) (weights : List ℚ) :
    Option α × Rng :=
  let support := ((items.zip weights).filter (fun p => decide (0 < p.2))).map Prod.fst
  (support.get? (r.stream % support.length), ⟨r.stream + 1⟩)

/-- Model of unweighted `np.random.choice(items)` (uniform over the list):
the draw is a generator-state-indexed selection from the list, advancing the
state. -/
def rngChoiceUniform (r : Rng) (items : List α) : Option α × Rng :=
  (items.get? (r.stream % items.length), ⟨r.stream + 1⟩)

/-- `SEMANTIC_OPERATORS`: `all` is `x == N`, `most` is `x > N/2` (true float
division, equivalently `2*x > N`), `some` is `x >= 1`, `no` is `x == 0`;
each returns the int 1 or 0. -/
def semOp (q : String) (x N : ℕ) : ℕ :=
  if q = "all" then (if x = N then 1 else 0)
  else if q = "most" then (if N < 2 * x then 1 else 0)
  else if q = "some" then (if 1 ≤ x then 1 else 0)
  else if q = "no" then (if x = 0 then 1 else 0)
  else 0

def QUANTIFIERS : List String := ["all", "most", "some", "no"]

def PREDICATES : List String := ["successful", "unsuccessful"]

/-- An outcome frequency tuple `(n_0, ..., n_m)`. -/
abbrev Outcome := List ℕ

/-- `itertools.combinations` of a list, choose `k`, in the lexicographic
order the Python iterator yields. -/
def combosList : ℕ → List ℕ → List (List ℕ)
  | 0, _ => [[]]
  | _ + 1, [] => []
  | k + 1, x :: xs => (combosList k xs).map (x :: ·) ++ combosList (k + 1) xs

/-- The inner loop of `_generate_outcome_tuples`: convert divider positions
into counts (`prev` starts at -1; `prevPlus1` is `prev+1`). -/
def dividersToCountsAux (total : ℕ) (prevPlus1 : ℕ) : List ℕ → List ℕ
  | [] => [total - prevPlus1]
  | d :: ds => (d - prevPlus1) :: dividersToCountsAux total (d + 1) ds

/-- `_generate_outcome_tuples(n, m)`: stars and bars over
`combinations(range(n+m), m)`. -/
def generateOutcomes (n m : ℕ) : List Outcome :=
  (combosList m (List.range (n + m))).map (dividersToCountsAux (n + m) 0)

/-- An utterance: an optional outer quantifier (present iff `n > 1`), an
inner quantifier, and a predicate. -/
structure UttSpec where
  q1 : Option String
  q2 : String
  pred : String
deriving Repr, DecidableEq

/-- The comma-joined utterance string used as the DataFrame row label. -/
def UttSpec.render (u : UttSpec) : String :=
  match u.q1 with
  | none => u.q2 ++ "," ++ u.pred
  | some q1 => q1 ++ "," ++ u.q2 ++ "," ++ u.pred

/-- `_generate_utterance`: the quantifier-predicate cross product, doubled
over an outer quantifier when `n > 1`, in `itertools.product` order. -/
def uttSpecs (n : ℕ) : List UttSpec :=
  if 1 < n then
    QUANTIFIERS.flatMap (fun q1 => QUANTIFIERS.flatMap (fun q2 =>
      PREDICATES.map (fun p => UttSpec.mk (some q1) q2 p)))
  else
    QUANTIFIERS.flatMap (fun q => PREDICATES.map (fun p => UttSpec.mk none q p))

def dotNat (a b : List ℕ) : ℕ := (List.zipWith (· * ·) a b).sum

/-- The per-success-count truth vector `vec` of
`_compute_utterance_truth_values`: entry `j` is the truth of the inner
quantifier applied to `j` successes (or `m - j` for the `unsuccessful`
predicate) out of `m`. -/
def innerVec (m : ℕ) (q2 pred : String) : List ℕ :=
  (List.range (m + 1)).map (fun j =>
    if pred = "successful" then semOp q2 j m else semOp q2 (m - j) m)

/-- The truth value of an utterance at an outcome tuple: for `n = 1` the dot
product `counts . vec`; for `n > 1` the outer quantifier applied to that dot
product (the number of experiments whose success count satisfies the inner
quantifier). -/
def truthVal (n m : ℕ) (u : UttSpec) (counts : Outcome) : ℕ :=
  let d := dotNat counts (innerVec m u.q2 u.pred)
  match u.q1 with
  | none => d
  | some q1 => semOp q1 d n

/-- The world state: experiment shape, validated theta grid, enumerated
outcome tuples, and the generator cache used by `sample(reuse=True)`
(`_cached_rng`, `_cached_seed`).  The likelihood and truth tables the Python
constructor precomputes are immutable closed-form functions of these fields
and are embedded as the functions `sucLikelihood`, `obsLikelihood` and
`truthVal` below. -/
structure World where
  n : ℕ
  m : ℕ
  thetaValues : List ℚ
  possibleOutcomes : List Outcome
  cachedRng : Option (Rng × Option ℤ)
deriving Repr, DecidableEq

/-- `_compute_successes_log_likelihoods` in linear space: the closed-form
binomial `P(S = s | theta)` for `S ~ Binomial(n*m, theta)`, with the exact
boundary handling at `theta = 0` and `theta = 1` (the code computes the log
of exactly this value via `gammaln`). -/
def sucLikelihood (n m : ℕ) (s : ℕ) (theta : ℚ) : ℚ :=
  let N := n * m
  if theta = 0 then (if s = 0 then 1 else 0)
  else if theta = 1 then (if s = N then 1 else 0)
  else (N.choose s : ℚ) * theta ^ s * (1 - theta) ^ (N - s)

/-- `_compute_observation_log_likelihoods` in linear space: the closed-form
multinomial probability of a frequency tuple, with the exact boundary
handling at `theta = 0` (all experiments must have 0 successes) and
`theta = 1` (all must have `m` successes). -/
def obsLikelihood (n m : ℕ) (O : Outcome) (theta : ℚ) : ℚ :=
  if theta = 0 then (if O.headD 0 = n then 1 else 0)
  else if theta = 1 then (if O.getD m 0 = n then 1 else 0)
  else
    ((n.factorial : ℚ) / ((O.map Nat.factorial).prod : ℚ)) *
    (((List.range (m + 1)).zip O).map (fun p =>
      ((m.choose p.1 : ℚ) * theta ^ p.1 * (1 - theta) ^ (m - p.1)) ^ p.2)).prod

/-- The `observations` accessor (the index of the observation table). -/
def World.observations (w : World) : List Outcome := w.possibleOutcomes

/-- The `utterances` accessor (the index of the truth table). -/
def World.utterances (w : World) : List String := (uttSpecs w.n).map UttSpec.render

/-- np.round half-to-even rounding of a rational to an integer. -/
def roundHalfEven (q : ℚ) : ℤ :=
  let f := ⌊q⌋
  if q - f < 1/2 then f
  else if (1:ℚ)/2 < q - f then f + 1
  else if f % 2 = 0 then f else f + 1

/-- `np.round(theta, decimals=10)`. -/
def round10 (q : ℚ) : ℚ := (roundHalfEven (q * 10 ^ 10) : ℚ) / 10 ^ 10

def insertSorted (x : ℚ) : List ℚ → List ℚ
  | [] => [x]
  | y :: ys =>
    if x < y then x :: y :: ys
    else if x = y then y :: ys
    else y :: insertSorted x ys

/-- `np.unique`: ascending sort with duplicates collapsed. -/
def sortedUnique (l : List ℚ) : List ℚ := l.foldr insertSorted []

/-- `np.round(np.linspace(0, 1, 11), 1)`. -/
def DEFAULT_THETA_VALUES : List ℚ :=
  [0, 1/10, 2/10, 3/10, 4/10, 5/10, 6/10, 7/10, 8/10, 9/10, 1]

/-- `World._validate_theta_values`: default grid when absent; otherwise the
values must lie in `[0,1]` and equal their sorted deduplication, and the
returned grid is the sorted deduplication of their 10-decimal rounding
(rounding only triggers non-fatal warnings). -/
def validateThetaValues (tv : Option (List ℚ)) : Except PyErr (List ℚ) :=
  match tv with
  | none => .ok DEFAULT_THETA_VALUES
  | some l =>
    if ¬ (∀ t ∈ l, 0 ≤ t ∧ t ≤ 1) then
      .error (.valueError ("All theta values must be between 0 and 1"))
    else if l ≠ sortedUnique l then
      .error (.valueError ("theta values must be arranged and not duplicating"))
    else .ok (sortedUnique (l.map round10))

/-- `World.__init__`: validate `n`, `m` and the theta grid, enumerate the
outcomes, and fail construction (wrapped in the
"Failed to initialize world state" RuntimeError) if any outcome column of
the truth table is all zero. -/
def mkWorld (n m : ℕ) (tv : Option (List ℚ)) : Except PyErr World :=
  if n < 1 ∨ m < 1 then .error (.valueError ("n and m must be positive"))
  else
    match validateThetaValues tv with
    | .error e => .error e
    | .ok thetas =>
      let outcomes := generateOutcomes n m
      if outcomes.any (fun O => (uttSpecs n).all (fun u => decide (truthVal n m u O = 0))) then
        .error (.runtimeError
          ("Failed to initialize world state: No utterance covers the following observations"))
      else
        .ok { n := n, m := m, thetaValues := thetas,
              possibleOutcomes := outcomes, cachedRng := none }

/-! Supporting lemmas for the coverage invariant (C4). -/

theorem combosList_sublist : ∀ (k : ℕ) (l : List ℕ), ∀ s ∈ combosList k l, s.Sublist l := by
  intro k l
  induction l generalizing k with
  | nil =>
    intro s hs
    match k with
    | 0 => simp only [combosList, List.mem_singleton] at hs; simp [hs]
    | k + 1 => simp [combosList] at hs
  | cons x xs ih =>
    intro s hs
    match k with
    | 0 =>
      simp only [combosList, List.mem_singleton] at hs
      simp [hs]
    | k + 1 =>
      simp only [combosList, List.mem_append, List.mem_map] at hs
      rcases hs with ⟨t, ht, rfl⟩ | hs
      · exact List.Sublist.cons₂ x (ih k t ht)
      · exact List.Sublist.cons x (ih (k + 1) s hs)

theorem combosList_length : ∀ (k : ℕ) (l : List ℕ), ∀ s ∈ combosList k l, s.length = k := by
  intro k l
  induction l generalizing k with
  | nil =>
    intro s hs
    match k with
    | 0 => simp only [combosList, List.mem_singleton] at hs; simp [hs]
    | k + 1 => simp [combosList] at hs
  | cons x xs ih =>
    intro s hs
    match k with
    | 0 =>
      simp only [combosList, List.mem_singleton] at hs
      simp [hs]
    | k + 1 =>
      simp only [combosList, List.mem_append, List.mem_map] at hs
      rcases hs with ⟨t, ht, rfl⟩ | hs
      · simp [ih k t ht]
      · exact ih (k + 1) s hs

theorem dividersToCountsAux_sum {total : ℕ} :
    ∀ (divs : List ℕ) (p1 : ℕ), List.Pairwise (· < ·) divs →
    (∀ x ∈ divs, x < total) → (∀ x ∈ divs, p1 ≤ x) → p1 ≤ total →
    (dividersToCountsAux total p1 divs).sum = total - p1 - divs.length ∧
      p1 + divs.length ≤ total := by
  intro divs
  induction divs with
  | nil =>
    intro p1 _ _ _ hle
    simp only [dividersToCountsAux, List.sum_cons, List.sum_nil, List.length_nil]
    omega
  | cons d ds ih =>
    intro p1 hpw hlt hge hle
    have hd_lt : d < total := hlt d (List.mem_cons_self _ _)
    have hd_ge : p1 ≤ d := hge d (List.mem_cons_self _ _)
    have hpw' : List.Pairwise (· < ·) ds := hpw.of_cons
    have hds_lt : ∀ x ∈ ds, x < total := fun x hx => hlt x (List.mem_cons_of_mem _ hx)
    have hds_ge : ∀ x ∈ ds, d + 1 ≤ x := by
      intro x hx
      exact Nat.succ_le_of_lt ((List.pairwise_cons.mp hpw).1 x hx)
    have hih := ih (d + 1) hpw' hds_lt hds_ge (Nat.succ_le_of_lt hd_lt)
    simp only [dividersToCountsAux, List.sum_cons, List.length_cons]
    omega

theorem dividersToCountsAux_length {total : ℕ} :
    ∀ (divs : List ℕ) (p1 : ℕ),
    (dividersToCountsAux total p1 divs).length = divs.length + 1 := by
  intro divs
  induction divs with
  | nil => intro p1; rfl
  | cons d ds ih =>
    intro p1
    simp only [dividersToCountsAux, List.length_cons, ih]

/-- Every generated outcome tuple has `m + 1` entries summing to `n`. -/
theorem outcome_shape {n m : ℕ} {O : Outcome} (h : O ∈ generateOutcomes n m) :
    O.sum = n ∧ O.length = m + 1 := by
  unfold generateOutcomes at h
  rcases List.mem_map.mp h with ⟨divs, hdivs, rfl⟩
  have hsub := combosList_sublist m (List.range (n + m)) divs hdivs
  have hlen := combosList_length m (List.range (n + m)) divs hdivs
  have hpw : List.Pairwise (· < ·) divs :=
    (List.pairwise_lt_range (n + m)).sublist hsub
  have hbound : ∀ x ∈ divs, x < n + m := fun x hx =>
    List.mem_range.mp (hsub.subset hx)
  have := dividersToCountsAux_sum divs 0 hpw hbound (fun x _ => Nat.zero_le x)
    (Nat.zero_le _)
  constructor
  · rw [this.1, hlen]; omega
  · rw [dividersToCountsAux_length, hlen]

theorem semOp_le_one (q : String) (x N : ℕ) : semOp q x N ≤ 1 := by
  unfold semOp
  split_ifs <;> simp

theorem dotNat_le_sum {a b : List ℕ} (hb : ∀ y ∈ b, y ≤ 1) :
    dotNat a b ≤ a.sum := by
  induction a generalizing b with
  | nil => simp [dotNat]
  | cons x xs ih =>
    cases b with
    | nil => simp [dotNat]
    | cons y ys =>
      simp only [dotNat, List.zipWith, List.sum_cons]
      have h1 : x * y ≤ x := by
        have := hb y (List.mem_cons_self _ _)
        calc x * y ≤ x * 1 := Nat.mul_le_mul_left x this
        _ = x := Nat.mul_one x
      have h2 := ih (b := ys) (fun z hz => hb z (List.mem_cons_of_mem _ hz))
      unfold dotNat at h2
      omega

theorem innerVec_le_one (m : ℕ) (q2 pred : String) :
    ∀ y ∈ innerVec m q2 pred, y ≤ 1 := by
  intro y hy
  unfold innerVec at hy
  rcases List.mem_map.mp hy with ⟨j, _, rfl⟩
  split
  · exact semOp_le_one _ _ _
  · exact semOp_le_one _ _ _

/-- The truth value of any utterance at any generated outcome is 0 or 1. -/
theorem truthVal_le_one {n m : ℕ} {u : UttSpec} {O : Outcome}
    (hn : 1 ≤ n) (hu : u ∈ uttSpecs n) (hO : O ∈ generateOutcomes n m) :
    truthVal n m u O ≤ 1 := by
  unfold truthVal
  cases hq1 : u.q1 with
  | some q1 => exact semOp_le_one _ _ _
  | none =>
    -- `q1 = none` only arises from the `n = 1` branch of `uttSpecs`
    have hn1 : n = 1 := by
      by_contra hne
      have h2 : 1 < n := lt_of_le_of_ne hn (Ne.symm hne)
      unfold uttSpecs at hu
      rw [if_pos h2] at hu
      simp only [List.mem_flatMap, List.mem_map] at hu
      rcases hu with ⟨q1, _, q2, _, p, _, rfl⟩
      cases hq1
    have hsum : O.sum = n := (outcome_shape hO).1
    calc dotNat O (innerVec m u.q2 u.pred) ≤ O.sum :=
          dotNat_le_sum (innerVec_le_one m u.q2 u.pred)
    _ = 1 := by rw [hsum, hn1]

/-- C4: for every `World(n, m, theta_values)` whose construction succeeds,
every outcome column of the utterance truth table has at least one utterance
row with truth value 1; and if some outcome tuple were covered by no
utterance, construction would fail with an error instead of returning a
World. -/
theorem c4_world_truth_coverage (n m : ℕ) (tv : Option (List ℚ)) :
    (∀ w, mkWorld n m tv = Except.ok w →
      ∀ O ∈ w.possibleOutcomes, ∃ u ∈ uttSpecs w.n, truthVal w.n w.m u O = 1)
    ∧ ((∃ O ∈ generateOutcomes n m, ∀ u ∈ uttSpecs n, truthVal n m u O = 0) →
      ∃ e, mkWorld n m tv = Except.error e) := by
  constructor
  · intro w hw O hO
    unfold mkWorld at hw
    by_cases hnm : n < 1 ∨ m < 1
    · rw [if_pos hnm] at hw; cases hw
    · rw [if_neg hnm] at hw
      cases htv : validateThetaValues tv with
      | error e => rw [htv] at hw; cases hw
      | ok thetas =>
        rw [htv] at hw
        dsimp only at hw
        by_cases hcov : ((generateOutcomes n m).any
            (fun O => (uttSpecs n).all (fun u => decide (truthVal n m u O = 0)))) = true
        · rw [if_pos hcov] at hw; cases hw
        · rw [if_neg hcov] at hw
          cases hw
          -- now `w` has fields n, m, outcomes
          simp only at hO ⊢
          have hnot : ¬ ((uttSpecs n).all (fun u => decide (truthVal n m u O = 0)) = true) := by
            intro hall
            exact hcov (List.any_eq_true.mpr ⟨O, hO, hall⟩)
          simp only [List.all_eq_true, decide_eq_true_eq] at hnot
          push_neg at hnot
          rcases hnot with ⟨u, hu, hune⟩
          refine ⟨u, hu, ?_⟩
          have hn : 1 ≤ n := by omega
          have := truthVal_le_one hn hu hO
          omega
  · intro hunc
    rcases hunc with ⟨O, hO, hall⟩
    unfold mkWorld
    by_cases hnm : n < 1 ∨ m < 1
    · rw [if_pos hnm]; exact ⟨_, rfl⟩
    · rw [if_neg hnm]
      cases htv : validateThetaValues tv with
      | error e => exact ⟨e, rfl⟩
      | ok thetas =>
        dsimp only
        have hcov : (generateOutcomes n m).any
            (fun O => (uttSpecs n).all (fun u => decide (truthVal n m u O = 0))) = true := by
          refine List.any_eq_true.mpr ⟨O, hO, ?_⟩
          simp only [List.all_eq_true, decide_eq_true_eq]
          exact hall
        rw [if_pos hcov]
        exact ⟨_, rfl⟩

/-- Witness for C4: the `n = 1, m = 1` world with the default theta grid
constructs, and every outcome column is covered. -/
theorem c4_witness :
    ∃ w, mkWorld 1 1 none = Except.ok w ∧
      ∀ O ∈ w.possibleOutcomes, ∃ u ∈ uttSpecs w.n, truthVal w.n w.m u O = 1 := by
  refine ⟨_, rfl, (c4_world_truth_coverage 1 1 none).1 _ rfl⟩

/-! ## Sampling (`World.sample`, `World.sample_run`) and the literal speaker -/

/-- `theta_values[np.abs(theta_values - theta).argmin()]`: the first grid
value at minimal absolute distance (`argmin` keeps the first minimizer);
`none` when the grid is empty (NumPy raises there). -/
def closestTheta (grid : List ℚ) (theta : ℚ) : Option ℚ :=
  grid.foldl (fun acc t =>
    match acc with
    | none => some t
    | some c => if |t - theta| < |c - theta| then some t else some c) none

/-- `np.isclose(theta, closest_theta, rtol=1e-10, atol=1e-10)`:
`|a - b| <= atol + rtol * |b|`. -/
def iscloseTheta (theta c : ℚ) : Prop :=
  |theta - c| ≤ 1 / 10 ^ 10 + (1 / 10 ^ 10) * |c|

instance (theta c : ℚ) : Decidable (iscloseTheta theta c) := by
  unfold iscloseTheta; infer_instance

/-- `World.sample(theta, seed, reuse)` (`rsa_optimal_exp_core.py:669-737`):
validate `theta`, find its grid value, draw one outcome from the observation
distribution at that value.  With `reuse=False` a fresh generator is built
from the seed and the cache is untouched; with `reuse=True` a cached
generator with matching seed is reused (its advanced state is stored back —
the Python generator advances in place), otherwise a fresh one is created
and cached, with a non-fatal warning. -/
def World.sample (w : World) (theta : ℚ) (seed : Option ℤ) (reuse : Bool)
    (osEntropy : ℕ) : Except PyErr (Outcome × World) :=
  if ¬ (0 ≤ theta ∧ theta ≤ 1) then
    .error (.valueError ("theta must be between 0 and 1"))
  else
    match closestTheta w.thetaValues theta with
    | none => .error (.valueError ("theta not found in theta_values"))
    | some c =>
      if ¬ iscloseTheta theta c then
        .error (.valueError ("theta not found in theta_values"))
      else
        let probabilities := w.possibleOutcomes.map (fun O => obsLikelihood w.n w.m O c)
        let rng : Rng :=
          if reuse then
            match w.cachedRng with
            | some (r, s) => if s = seed then r else defaultRngOpt seed osEntropy
            | none => defaultRngOpt seed osEntropy
          else defaultRngOpt seed osEntropy
        match rngChoiceWeighted rng w.possibleOutcomes probabilities with
        | (some O, rng1) =>
          .ok (O, if reuse then { w with cachedRng := some (rng1, seed) } else w)
        | (none, _) => .error (.valueError ("probabilities are invalid"))

/-- `n_round` sequential draws from one seeded generator (the vectorized
`rng.choice(..., size=n_round, ...)` call). -/
def sampleRunDraws (rng : Rng) (outcomes : List Outcome) (probs : List ℚ) :
    ℕ → Option (List Outcome)
  | 0 => some []
  | k + 1 =>
    match rngChoiceWeighted rng outcomes probs with
    | (some O, rng1) => (sampleRunDraws rng1 outcomes probs k).map (O :: ·)
    | (none, _) => none

/-- `World.sample_run(theta, n_round, run_seed)`: validate, take the closest
grid theta (mismatch only warns here), validate the probability vector, then
draw `n_round` observations from a generator seeded with `run_seed`. -/
def World.sampleRun (w : World) (theta : ℚ) (nRound : ℕ) (runSeed : Option ℤ)
    (osEntropy : ℕ) : Except PyErr (List Outcome) :=
  if nRound < 1 then .error (.valueError ("n_round must be a positive integer"))
  else if ¬ (0 ≤ theta ∧ theta ≤ 1) then
    .error (.valueError ("theta must be between 0 and 1"))
  else
    match closestTheta w.thetaValues theta with
    | none => .error (.valueError ("theta has no closest grid value"))
    | some c =>
      let probs := w.possibleOutcomes.map (fun O => obsLikelihood w.n w.m O c)
      if probs.sum ≠ 1 then .error (.valueError ("Probabilities do not sum to 1"))
      else if ¬ (∀ p ∈ probs, 0 ≤ p) then
        .error (.valueError ("Found negative probabilities"))
      else
        match sampleRunDraws (defaultRngOpt runSeed osEntropy) w.possibleOutcomes probs nRound with
        | some os => .ok os
        | none => .error (.valueError ("sampling failed"))

/-- `_process_initial_beliefs` (identical in `LiteralSpeaker`,
`LiteralListener` and, per axis, `PragmaticListener_obs_n`), linear space:
`None` gives the uniform prior `1/len(theta)` (log space: `-log n`); an
explicit prior must have the grid length, entries in `[0,1]`, and sum 1
(`np.isclose` in floats; exact in this embedding). -/
def processInitialBeliefs (grid : List ℚ) (init : Option (List ℚ)) :
    Except PyErr (List ℚ) :=
  match init with
  | none => .ok (grid.map (fun _ => 1 / (grid.length : ℚ)))
  | some b =>
    if b.length ≠ grid.length then
      .error (.valueError ("initial beliefs length must match number of theta values"))
    else if ¬ (∀ p ∈ b, 0 ≤ p ∧ p ≤ 1) then
      .error (.valueError ("All probabilities must be between 0 and 1"))
    else if b.sum ≠ 1 then
      .error (.valueError ("Probabilities must sum to 1"))
    else .ok b

/-- The literal speaker: a shared world reference and the unnormalized
log-belief vector over theta (linear space). -/
structure LiteralSpeakerState where
  world : World
  unCurrentLogBelief : List ℚ
deriving Repr, DecidableEq

/-- `LiteralSpeaker.__init__`. -/
def mkLiteralSpeaker (w : World) (init : Option (List ℚ)) :
    Except PyErr LiteralSpeakerState :=
  match processInitialBeliefs w.thetaValues init with
  | .error e => .error e
  | .ok b => .ok ⟨w, b⟩

/-- `LiteralSpeaker._compute_utterance_log_prob_obs` in linear space:
uniform mass over the utterances whose truth-table entry is nonzero
(`astype(bool)`) at the observation, zero on the rest. -/
def literalUttProb (n m : ℕ) (u : UttSpec) (O : Outcome) : ℚ :=
  if truthVal n m u O ≠ 0 then
    1 / (((uttSpecs n).countP (fun v => decide (truthVal n m v O ≠ 0))) : ℚ)
  else 0

/-- The list of utterance strings literally true of an observation, in truth
table (utterance list) order: `uttrs.index[uttrs.iloc[:, 0] == 1]`. -/
def trueUtterances (n m : ℕ) (O : Outcome) : List String :=
  ((uttSpecs n).filter (fun u => decide (truthVal n m u O = 1))).map UttSpec.render

/-- `LiteralSpeaker.update_and_speak(observation)`
(`rsa_optimal_exp_core.py:1022-1066`): validate the observation (before any
mutation); multiply the belief pointwise by the success-likelihood row at
`successes = sum j*n_j` (log space: add the log-likelihood row — never
renormalized); then draw an utterance uniformly among those literally true
via the module-level `np.random` generator `g`, which is hidden global
state, not a call argument of the Python method.  Returns the produced
result (or exception) together with the state the Python object is left in:
on the validation error the state is exactly the input state. -/
def LiteralSpeakerState.updateAndSpeak (s : LiteralSpeakerState)
    (observation : Outcome) (g : Rng) :
    Except PyErr (String × Rng) × LiteralSpeakerState :=
  if observation ∉ s.world.observations then
    (.error (.valueError ("Observation not supported by the world.")), s)
  else
    let successes := dotNat observation (List.range (s.world.m + 1))
    let newBelief := List.zipWith (· * ·) s.unCurrentLogBelief
      (s.world.thetaValues.map (sucLikelihood s.world.n s.world.m successes))
    let s1 : LiteralSpeakerState := { s with unCurrentLogBelief := newBelief }
    match rngChoiceUniform g (trueUtterances s.world.n s.world.m observation) with
    | (some u, g1) => (.ok (u, g1), s1)
    | (none, _) =>
      (.error (.runtimeError
        ("Utterance sampling failed: No valid utterances for observation")), s1)

/-- C3: for an observation in the world outcome list,
`LiteralSpeaker.update_and_speak` (1) returns an utterance whose truth-table
entry at the observation is 1, the draw being the uniform
(generator-indexed) selection from exactly the list of utterances true of
the observation, and (2) replaces the unnormalized log-belief by its
elementwise sum (in linear space: product) with the success log-likelihood
row at `successes = sum j*n_j`, with no renormalization. -/
theorem c3_literal_speaker_update (s : LiteralSpeakerState)
    (observation : Outcome) (g : Rng) (out : String × Rng)
    (s1 : LiteralSpeakerState) (hobs : observation ∈ s.world.observations)
    (hok : s.updateAndSpeak observation g = (Except.ok out, s1)) :
    (∃ u ∈ uttSpecs s.world.n,
      truthVal s.world.n s.world.m u observation = 1 ∧ out.1 = u.render)
    ∧ (trueUtterances s.world.n s.world.m observation).get?
        (g.stream % (trueUtterances s.world.n s.world.m observation).length)
        = some out.1
    ∧ (∀ str, str ∈ trueUtterances s.world.n s.world.m observation ↔
        ∃ u ∈ uttSpecs s.world.n,
          truthVal s.world.n s.world.m u observation = 1 ∧ str = u.render)
    ∧ s1.unCurrentLogBelief = List.zipWith (· * ·) s.unCurrentLogBelief
        (s.world.thetaValues.map (sucLikelihood s.world.n s.world.m
          (dotNat observation (List.range (s.world.m + 1)))))
    ∧ s1.world = s.world := by
  unfold LiteralSpeakerState.updateAndSpeak at hok
  rw [if_neg (by simpa using hobs)] at hok
  dsimp only at hok
  cases hdraw : rngChoiceUniform g (trueUtterances s.world.n s.world.m observation) with
  | mk choice g1 =>
    rw [hdraw] at hok
    cases choice with
    | none => cases hok
    | some u =>
      dsimp only at hok
      rw [Prod.mk.injEq] at hok
      obtain ⟨hfst, hsnd⟩ := hok
      have hout : out = (u, g1) := by
        injection hfst with h
        exact h.symm
      have hbel : s1.unCurrentLogBelief = List.zipWith (· * ·) s.unCurrentLogBelief
          (s.world.thetaValues.map (sucLikelihood s.world.n s.world.m
            (dotNat observation (List.range (s.world.m + 1))))) := by
        rw [← hsnd]
      have hsw : s1.world = s.world := by rw [← hsnd]
      unfold rngChoiceUniform at hdraw
      have hget : (trueUtterances s.world.n s.world.m observation).get?
          (g.stream % (trueUtterances s.world.n s.world.m observation).length)
          = some u := by
        have := congrArg Prod.fst hdraw
        simpa using this
      have hmem : u ∈ trueUtterances s.world.n s.world.m observation :=
        List.get?_mem hget
      unfold trueUtterances at hmem
      rcases List.mem_map.mp hmem with ⟨uspec, huspec, hrender⟩
      have huin := List.mem_of_mem_filter huspec
      have htrue : truthVal s.world.n s.world.m uspec observation = 1 := by
        have := List.of_mem_filter huspec
        simpa using this
      refine ⟨⟨uspec, huin, htrue, by rw [hout, ← hrender]⟩, ?_, ?_, ?_, ?_⟩
      · rw [hout]; exact hget
      · intro str
        constructor
        · intro hstr
          unfold trueUtterances at hstr
          rcases List.mem_map.mp hstr with ⟨v, hv, hrv⟩
          exact ⟨v, List.mem_of_mem_filter hv, by simpa using List.of_mem_filter hv,
            hrv.symm⟩
        · rintro ⟨v, hv, hvt, rfl⟩
          unfold trueUtterances
          exact List.mem_map_of_mem _ (List.mem_filter.mpr ⟨hv, by simpa using hvt⟩)
      · exact hbel
      · exact hsw

/-- Witness for C3: the `n = 1, m = 1` world, uniform prior, observation
`(0, 1)` (one success). -/
theorem c3_witness :
    ∃ w s out s1,
      mkWorld 1 1 none = Except.ok w ∧
      mkLiteralSpeaker w none = Except.ok s ∧
      [0, 1] ∈ s.world.observations ∧
      LiteralSpeakerState.updateAndSpeak s [0, 1] ⟨0⟩ = (Except.ok out, s1) ∧
      ((∃ u ∈ uttSpecs s.world.n,
          truthVal s.world.n s.world.m u [0, 1] = 1 ∧ out.1 = u.render)
        ∧ (trueUtterances s.world.n s.world.m [0, 1]).get?
            ((⟨0⟩ : Rng).stream % (trueUtterances s.world.n s.world.m [0, 1]).length)
            = some out.1
        ∧ (∀ str, str ∈ trueUtterances s.world.n s.world.m [0, 1] ↔
            ∃ u ∈ uttSpecs s.world.n,
              truthVal s.world.n s.world.m u [0, 1] = 1 ∧ str = u.render)
        ∧ s1.unCurrentLogBelief = List.zipWith (· * ·) s.unCurrentLogBelief
            (s.world.thetaValues.map (sucLikelihood s.world.n s.world.m
              (dotNat [0, 1] (List.range (s.world.m + 1)))))
        ∧ s1.world = s.world) := by
  refine ⟨_, _, _, _, rfl, rfl, by decide, rfl, ?_⟩
  exact c3_literal_speaker_update _ _ _ _ _ (by decide) rfl

/-- C6 counterexample: the claim says every stochastic draw, including the
utterance sampling of `LiteralSpeaker.update_and_speak`, is derivable from
an explicit seed passed at the call boundary with no hidden global random
state.  But `update_and_speak` draws with `np.random.choice`, the
module-level global generator, and takes no seed argument: with identical
call-boundary arguments, two states of the hidden global generator yield
different utterances. -/
theorem c6_counterexample :
    ∃ w s, mkWorld 1 1 none = Except.ok w ∧
      mkLiteralSpeaker w none = Except.ok s ∧
      (LiteralSpeakerState.updateAndSpeak s [0, 1] ⟨0⟩).1 ≠
        (LiteralSpeakerState.updateAndSpeak s [0, 1] ⟨1⟩).1 := by
  refine ⟨_, _, rfl, rfl, by decide⟩

/-- C6 (amended): observation sampling in `World.sample` and
`World.sample_run` is derivable from the explicit seed passed at the call —
with an explicit seed and `reuse=False` the result does not depend on any
other entropy source, and the world (including the generator cache) is
returned unchanged, so two calls with the same theta and seed return
identical outcome tuples.  (The utterance sampling of the speakers, by
contrast, reads the hidden module-level generator: see the
counterexample.) -/
theorem c6_sample_seed_determinism (w : World) (theta : ℚ) (s : ℤ)
    (e1 e2 : ℕ) :
    World.sample w theta (some s) false e1 = World.sample w theta (some s) false e2
    ∧ (∀ O w1, World.sample w theta (some s) false e1 = Except.ok (O, w1) →
        w1 = w)
    ∧ (∀ nR, World.sampleRun w theta nR (some s) e1 =
        World.sampleRun w theta nR (some s) e2) := by
  refine ⟨rfl, ?_, fun nR => rfl⟩
  intro O w1 hok
  unfold World.sample at hok
  by_cases hrange : ¬ (0 ≤ theta ∧ theta ≤ 1)
  · rw [if_pos hrange] at hok; cases hok
  · rw [if_neg hrange] at hok
    cases hclosest : closestTheta w.thetaValues theta with
    | none => rw [hclosest] at hok; cases hok
    | some c =>
      rw [hclosest] at hok
      dsimp only at hok
      by_cases hclose : ¬ iscloseTheta theta c
      · rw [if_pos hclose] at hok; cases hok
      · rw [if_neg hclose] at hok
        simp only [Bool.false_eq_true, if_false] at hok
        cases hdraw : rngChoiceWeighted (defaultRngOpt (some s) e1) w.possibleOutcomes
            (w.possibleOutcomes.map (fun O => obsLikelihood w.n w.m O c)) with
        | mk choice rng1 =>
          rw [hdraw] at hok
          cases choice with
          | none => cases hok
          | some O2 =>
            injection hok with h
            injection h with h1 h2
            exact h2.symm

/-- Witness for C6 (amended) at the world of end-to-end scenario B
(`World(2, 2)`, default grid, theta 0.5, seed 42). -/
theorem c6_witness :
    ∃ w, mkWorld 2 2 none = Except.ok w ∧
      (World.sample w (1/2) (some 42) false 0 = World.sample w (1/2) (some 42) false 1
      ∧ (∀ O w1, World.sample w (1/2) (some 42) false 0 = Except.ok (O, w1) →
          w1 = w)
      ∧ (∀ nR, World.sampleRun w (1/2) nR (some 42) 0 =
          World.sampleRun w (1/2) nR (some 42) 1)) := by
  refine ⟨_, rfl, c6_sample_seed_determinism _ (1/2) 42 0 1⟩

/-! ## Literal listener (`rsa_optimal_exp_core.py:1082-1321`) -/

/-- Entry of `utterance_log_likelihood_theta` (linear space): the
`log_M_product` of `P(u|O)` and `P(O|theta)` marginalizing observations. -/
def uttLikTheta (w : World) (u : UttSpec) (theta : ℚ) : ℚ :=
  (w.possibleOutcomes.map (fun O =>
    literalUttProb w.n w.m u O * obsLikelihood w.n w.m O theta)).sum

/-- `utterance_log_likelihood_theta` as a table: rows = utterances, columns
= theta grid. -/
def computeUttLogLikTheta (w : World) : List (List ℚ) :=
  (uttSpecs w.n).map (fun u => w.thetaValues.map (uttLikTheta w u))

/-- `_compute_theta_log_post_utterance` (linear space): add the log-prior to
each utterance column of `P(u|theta)` and transpose, so rows = theta grid,
columns = utterances; entry `(theta, u)` is `lik[u][theta] * belief[theta]`. -/
def computeThetaLogPostUtt (uttLogLik : List (List ℚ)) (belief : List ℚ) :
    List (List ℚ) :=
  belief.enum.map (fun p => uttLogLik.map (fun row => row.getD p.1 0 * p.2))

/-- The literal listener: world reference, unnormalized log-belief over
theta, embedded literal speaker, and the two derived tables. -/
structure LiteralListenerState where
  world : World
  unCurrentLogBelief : List ℚ
  literalSpeaker : LiteralSpeakerState
  utteranceLogLikelihoodTheta : List (List ℚ)
  thetaLogPostUtterance : List (List ℚ)
deriving Repr, DecidableEq

/-- `LiteralListener.__init__`: beliefs, embedded speaker, `P(u|theta)`,
posterior table; any failure is re-raised as the
"Failed to initialize listener" RuntimeError. -/
def mkLiteralListener (w : World) (init : Option (List ℚ)) :
    Except PyErr LiteralListenerState :=
  match processInitialBeliefs w.thetaValues init with
  | .error e => .error (.runtimeError ("Failed to initialize listener: " ++ e.msg))
  | .ok b =>
    match mkLiteralSpeaker w init with
    | .error e => .error (.runtimeError ("Failed to initialize listener: " ++ e.msg))
    | .ok sp =>
      let lik := computeUttLogLikTheta w
      .ok ⟨w, b, sp, lik, computeThetaLogPostUtt lik b⟩

/-- `LiteralListener.listen_and_update(utterance)`
(`rsa_optimal_exp_core.py:1269-1310`): the utterance must be known — this
validation precedes any mutation, so an unknown utterance raises ValueError
with the state exactly as it was; otherwise the belief becomes the
utterance column of the posterior table and the posterior table is rebuilt
from the (static) likelihood table and the new belief. -/
def LiteralListenerState.listenAndUpdate (l : LiteralListenerState)
    (utterance : String) : Except PyErr Unit × LiteralListenerState :=
  if utterance ∉ l.world.utterances then
    (.error (.valueError ("Utterance not found in possible utterances.")), l)
  else
    let idx := l.world.utterances.indexOf utterance
    let newBelief := l.thetaLogPostUtterance.map (fun row => row.getD idx 0)
    (.ok (),
      { l with
        unCurrentLogBelief := newBelief,
        thetaLogPostUtterance :=
          computeThetaLogPostUtt l.utteranceLogLikelihoodTheta newBelief })

/-! ## Pragmatic speaker (`rsa_optimal_exp_core.py:1327-1671`) -/

/-- The unnormalized `log P(O)` of `_compute_log_informativeness`
(linear space): `log_M_product` of `P(O|theta)` with the listener belief
column. -/
def unnormProbO (w : World) (belief : List ℚ) (O : Outcome) : ℚ :=
  (List.zipWith (fun theta b => obsLikelihood w.n w.m O theta * b)
    w.thetaValues belief).sum

/-- The unnormalized observation-posterior column of one utterance:
`P(u|O) * P(O)` over the observation axis. -/
def infColumn (w : World) (belief : List ℚ) (u : UttSpec) : List ℚ :=
  w.possibleOutcomes.map (fun O => literalUttProb w.n w.m u O * unnormProbO w belief O)

/-- One cell of the normalized informativeness table `log P_L0(O|u)`: the
elementwise value of `log_column_normalize` on the utterance column (an
all-`-inf` column is left unchanged by `normalizeCol`). -/
def logInfCellAt (w : World) (belief : List ℚ) (u : UttSpec) (O : Outcome) : ℚ :=
  let v := literalUttProb w.n w.m u O * unnormProbO w belief O
  if (infColumn w belief u).all (fun x => x = 0) then v
  else v / (infColumn w belief u).sum

/-- Sanity: the cellwise definition agrees with `normalizeCol` applied to
the whole utterance column, entry by entry. -/
theorem logInfCell_normalizeCol (w : World) (belief : List ℚ) (u : UttSpec) :
    (normalizeCol (infColumn w belief u)).1 =
      w.possibleOutcomes.map (logInfCellAt w belief u) := by
  unfold normalizeCol logInfCellAt
  by_cases hall : (infColumn w belief u).all (fun x => x = 0)
  · rw [if_pos hall]
    simp only [if_pos hall]
    exact rfl
  · rw [if_neg hall]
    simp only [if_neg hall]
    unfold infColumn
    rw [List.map_map]
    rfl

/-- The persuasiveness constant of one utterance (by utterance column index
`i` into the listener posterior table): `E[theta|u]` for `pers+`,
`E[1-theta|u]` for `pers-`, and `0` in log space (1 linear) for `inf`,
where the expectation uses the column-normalized theta posterior. -/
def persValueAt (w : World) (post : List (List ℚ)) (psi : String) (i : ℕ) : ℚ :=
  let ncol := (normalizeCol (post.map (fun row => row.getD i 0))).1
  if psi = "pers+" then (List.zipWith (· * ·) w.thetaValues ncol).sum
  else if psi = "pers-" then
    (List.zipWith (fun theta p => (1 - theta) * p) w.thetaValues ncol).sum
  else 1

/-- One utility row (`_compute_utility`, `rsa_optimal_exp_core.py:1535-1597`)
for the utterance at index `i`: literally false cells are forced to `-inf`
(`none`) always; the purely informative branch keeps informativeness, the
`beta = 0` branch keeps persuasiveness, and the mixed branch weights the two
in log space (`mix2`) with cells impossible under either term forced to
`-inf`. -/
def utilityRowAt (w : World) (listener : LiteralListenerState) (psi : String)
    (beta : ℚ) (i : ℕ) (u : UttSpec) : List (Option UCell) :=
  let persV := persValueAt w listener.thetaLogPostUtterance psi i
  w.possibleOutcomes.map (fun O =>
    let iv := logInfCellAt w listener.unCurrentLogBelief u O
    if truthVal w.n w.m u O = 0 then none
    else if psi = "inf" then (if iv = 0 then none else some (UCell.lin iv))
    else if beta = 0 then (if persV = 0 then none else some (UCell.lin persV))
    else if iv = 0 ∨ persV = 0 then none
    else some (UCell.mix2 iv persV))

/-- The full utility table: rows = utterances, columns = observations. -/
def computeUtility (w : World) (listener : LiteralListenerState) (psi : String)
    (beta : ℚ) : List (List (Option UCell)) :=
  (uttSpecs w.n).enum.map (fun p => utilityRowAt w listener psi beta p.1 p.2)

/-- Transpose with an explicit padding default (shapes are always exact in
the pipeline; the default only makes the function total). -/
def transposeD (d : α) (rows : List (List α)) (ncols : ℕ) : List (List α) :=
  (List.range ncols).map (fun j => rows.map (fun r => r.getD j d))

/-- `PragmaticSpeaker_obs._compute_utterance_log_prob_obs` without the
utility recomputation: apply `log_column_softmax` down each observation
column of the utility table (row-major in, row-major out); an error is
wrapped in the "Failed to compute utterance probability table"
RuntimeError. -/
def softmaxUtility (w : World) (utility : List (List (Option UCell)))
    (beta : ℚ) (alpha : PyAlpha) : Except PyErr (List (List PEntry)) :=
  match logColumnSoftmaxCore beta
      (transposeD none utility w.possibleOutcomes.length) alpha false with
  | .error e =>
    .error (.runtimeError ("Failed to compute utterance probability table: " ++ e.msg))
  | .ok colsOut => .ok (transposeD PEntry.zero colsOut (uttSpecs w.n).length)

/-- The pragmatic speaker `S1`: configuration, embedded literal speaker and
literal listener, the stored utility table, and the stored utterance
probability table. -/
structure PragSpeakerState where
  world : World
  omega : String
  psi : String
  alpha : PyAlpha
  beta : ℚ
  updateInternal : Bool
  literalSpeaker : LiteralSpeakerState
  literalListener : LiteralListenerState
  utility : List (List (Option UCell))
  utteranceLogProbObs : List (List PEntry)
deriving Repr, DecidableEq

/-- `PragmaticSpeaker_obs.__init__`: validate `omega` and `psi` (ValueError,
before the try block); force `psi = "inf"` under a cooperative omega (with a
warning); build the embedded literal speaker and listener, the utility and
the probability table, wrapping any failure in the
"Failed to initialize pragmatic speaker" RuntimeError. -/
def mkPragmaticSpeaker (w : World) (omega psi : String) (updateInternal : Bool)
    (alpha : PyAlpha) (beta : ℚ) (init : Option (List ℚ)) :
    Except PyErr PragSpeakerState :=
  if omega ∉ (["coop", "strat"] : List String) then
    .error (.valueError ("omega must be one of the valid omega types"))
  else if psi ∉ (["inf", "pers+", "pers-"] : List String) then
    .error (.valueError ("psi must be one of the valid psi types"))
  else
    let psiEff := if omega = "coop" ∧ psi ≠ "inf" then "inf" else psi
    match mkLiteralSpeaker w init with
    | .error e =>
      .error (.runtimeError ("Failed to initialize pragmatic speaker: " ++ e.msg))
    | .ok sp =>
      match mkLiteralListener w init with
      | .error e =>
        .error (.runtimeError ("Failed to initialize pragmatic speaker: " ++ e.msg))
      | .ok ll =>
        let util := computeUtility w ll psiEff beta
        match softmaxUtility w util beta alpha with
        | .error e =>
          .error (.runtimeError ("Failed to initialize pragmatic speaker: " ++ e.msg))
        | .ok probs =>
          .ok ⟨w, omega, psiEff, alpha, beta, updateInternal, sp, ll, util, probs⟩

/-- Positivity of a probability entry: which rows `np.random.choice` can
draw with weights `np.exp(log_probs)`. -/
def PEntry.isPos : PEntry → Bool
  | .zero => false
  | .q v => decide (0 < v)
  | .soft _ _ _ _ => true

/-- `PragmaticSpeaker_obs.update_and_speak(observation)`
(`rsa_optimal_exp_core.py:1632-1656`): first advance the embedded literal
speaker (a Bayesian belief update plus a discarded draw from the hidden
global generator); then draw an utterance from the stored `P(u|O)` column at
the observation (again via the global generator: rows with probability zero
are never drawn); only when `update_internal` is set, push the utterance
into the embedded literal listener and recompute the utility and probability
tables (the Python recompute assigns `self.utility` before the softmax, so a
softmax failure leaves the new utility with the stale probability table).
Any exception is re-raised as the
"Failed to update and select utterance" RuntimeError. -/
def PragSpeakerState.updateAndSpeak (s : PragSpeakerState) (observation : Outcome)
    (g : Rng) : Except PyErr (String × Rng) × PragSpeakerState :=
  match s.literalSpeaker.updateAndSpeak observation g with
  | (.error e, sp1) =>
    (.error (.runtimeError ("Failed to update and select utterance: " ++ e.msg)),
      { s with literalSpeaker := sp1 })
  | (.ok (_, g1), sp1) =>
    let s1 : PragSpeakerState := { s with literalSpeaker := sp1 }
    let idx := s.world.observations.indexOf observation
    let col := s.utteranceLogProbObs.map (fun row => row.getD idx PEntry.zero)
    let support := ((s.world.utterances.zip col).filter (fun p => p.2.isPos)).map Prod.fst
    match rngChoiceUniform g1 support with
    | (none, _) =>
      (.error (.runtimeError ("Failed to update and select utterance: probabilities are invalid")), s1)
    | (some u, g2) =>
      if s.updateInternal then
        match s1.literalListener.listenAndUpdate u with
        | (.error e, l1) =>
          (.error (.runtimeError ("Failed to update and select utterance: " ++ e.msg)),
            { s1 with literalListener := l1 })
        | (.ok _, l1) =>
          let util := computeUtility s.world l1 s.psi s.beta
          match softmaxUtility s.world util s.beta s.alpha with
          | .error e =>
            (.error (.runtimeError ("Failed to update and select utterance: " ++ e.msg)),
              { s1 with literalListener := l1, utility := util })
          | .ok probs =>
            (.ok (u, g2),
              { s1 with
                literalListener := l1,
                utility := util,
                utteranceLogProbObs := probs })
      else
        (.ok (u, g2), s1)

/-! Supporting lemmas for the utility mask invariant (C5). -/

/-- Entry of a 2-D table with out-of-range default. -/
def tableEntry (d : α) (t : List (List α)) (i j : ℕ) : α := (t.getD i []).getD j d

theorem getD_of_get? {l : List α} {i : ℕ} {a : α} (d : α) (h : l.get? i = some a) :
    l.getD i d = a := by
  rw [List.getD_eq_getD_get?, h]
  rfl

theorem computeUtility_get {w : World} {listener : LiteralListenerState}
    {psi : String} {beta : ℚ} {i : ℕ} {u : UttSpec}
    (hu : (uttSpecs w.n).get? i = some u) :
    (computeUtility w listener psi beta).get? i =
      some (utilityRowAt w listener psi beta i u) := by
  unfold computeUtility
  rw [List.get?_map, List.get?_enum, hu]
  rfl

theorem computeUtility_length (w : World) (listener : LiteralListenerState)
    (psi : String) (beta : ℚ) :
    (computeUtility w listener psi beta).length = (uttSpecs w.n).length := by
  unfold computeUtility
  rw [List.length_map, List.enum_length]

/-- The cellwise content of the utility table. -/
theorem computeUtility_entry {w : World} {listener : LiteralListenerState}
    {psi : String} {beta : ℚ} {i j : ℕ} {u : UttSpec} {O : Outcome}
    (hu : (uttSpecs w.n).get? i = some u)
    (hO : w.possibleOutcomes.get? j = some O) :
    tableEntry none (computeUtility w listener psi beta) i j =
      (if truthVal w.n w.m u O = 0 then none
       else if psi = "inf" then
         (if logInfCellAt w listener.unCurrentLogBelief u O = 0 then none
          else some (UCell.lin (logInfCellAt w listener.unCurrentLogBelief u O)))
       else if beta = 0 then
         (if persValueAt w listener.thetaLogPostUtterance psi i = 0 then none
          else some (UCell.lin (persValueAt w listener.thetaLogPostUtterance psi i)))
       else if logInfCellAt w listener.unCurrentLogBelief u O = 0 ∨
           persValueAt w listener.thetaLogPostUtterance psi i = 0 then none
       else some (UCell.mix2 (logInfCellAt w listener.unCurrentLogBelief u O)
           (persValueAt w listener.thetaLogPostUtterance psi i))) := by
  unfold tableEntry
  rw [getD_of_get? [] (computeUtility_get hu)]
  unfold utilityRowAt
  rw [List.getD_eq_getD_get?, List.get?_map, hO]
  rfl

theorem softmaxColDeterm_none {beta : ℚ} {col : List (Option UCell)}
    {out : List PEntry} (h : softmaxColDeterm beta col = .ok out) {r : ℕ}
    (hr : col.get? r = some none) : out.get? r = some PEntry.zero := by
  unfold softmaxColDeterm at h
  cases hmk : colMaxKey beta col with
  | none => rw [hmk] at h; cases h
  | some mk =>
    rw [hmk] at h
    dsimp only at h
    cases h
    rw [List.get?_map, hr]
    rfl

theorem softmaxColFloat_none {a beta : ℚ} {col : List (Option UCell)}
    {out : List PEntry} (h : softmaxColFloat a beta col = .ok out) {r : ℕ}
    (hr : col.get? r = some none) : out.get? r = some PEntry.zero := by
  unfold softmaxColFloat at h
  by_cases hnone : (colMaxKey beta col).isNone = true
  · rw [if_pos hnone] at h; cases h
  · rw [if_neg hnone] at h
    cases h
    rw [List.get?_map, hr]
    rfl

theorem logColumnSoftmaxCore_preserves_none {beta : ℚ}
    {cols : List (List (Option UCell))} {alpha : PyAlpha}
    {out : List (List PEntry)}
    (h : logColumnSoftmaxCore beta cols alpha false = .ok out) :
    List.Forall₂ (fun c oc => ∀ r, c.get? r = some none →
      oc.get? r = some PEntry.zero) cols out := by
  unfold logColumnSoftmaxCore at h
  cases alpha with
  | str s =>
    dsimp only at h
    by_cases hs : s = "determ"
    · rw [if_pos hs] at h
      exact (exceptCols_ok_forall₂ h).imp
        (fun {c oc} hc r hr => softmaxColDeterm_none hc hr)
    · rw [if_neg hs] at h; cases h
  | fl a =>
    dsimp only at h
    by_cases ha : a ≤ 0
    · rw [if_pos ha] at h; cases h
    · rw [if_neg ha] at h
      exact (exceptCols_ok_forall₂ h).imp
        (fun {c oc} hc r hr => softmaxColFloat_none hc hr)

theorem transposeD_get {d : α} {rows : List (List α)} {ncols j : ℕ}
    (hj : j < ncols) :
    (transposeD d rows ncols).get? j = some (rows.map (fun r => r.getD j d)) := by
  unfold transposeD
  rw [List.get?_map, List.get?_range hj]
  rfl

theorem transposeD_length (d : α) (rows : List (List α)) (ncols : ℕ) :
    (transposeD d rows ncols).length = ncols := by
  unfold transposeD
  rw [List.length_map, List.length_range]

/-- A `-inf` utility cell comes out of the softmax as probability zero. -/
theorem softmaxUtility_preserves_none {w : World}
    {utility : List (List (Option UCell))} {beta : ℚ} {alpha : PyAlpha}
    {probs : List (List PEntry)}
    (hok : softmaxUtility w utility beta alpha = .ok probs)
    {i j : ℕ} (hi : i < (uttSpecs w.n).length)
    (hj : j < w.possibleOutcomes.length)
    (hlen : utility.length = (uttSpecs w.n).length)
    (hcell : tableEntry none utility i j = none) :
    tableEntry PEntry.zero probs i j = PEntry.zero := by
  unfold softmaxUtility at hok
  cases hcore : logColumnSoftmaxCore beta
      (transposeD none utility w.possibleOutcomes.length) alpha false with
  | error e => rw [hcore] at hok; cases hok
  | ok colsOut =>
    rw [hcore] at hok
    cases hok
    have hf := logColumnSoftmaxCore_preserves_none hcore
    have hlenc : colsOut.length = w.possibleOutcomes.length := by
      rw [← hf.length_eq, transposeD_length]
    rw [List.forall₂_iff_get] at hf
    obtain ⟨_, hptw⟩ := hf
    have hjlt1 : j < (transposeD none utility w.possibleOutcomes.length).length := by
      rw [transposeD_length]; exact hj
    have hjlt2 : j < colsOut.length := by rw [hlenc]; exact hj
    have hcol := hptw j hjlt1 hjlt2
    have hgetIn : (transposeD none utility w.possibleOutcomes.length).get ⟨j, hjlt1⟩ =
        utility.map (fun r => r.getD j none) := by
      have h2 := @transposeD_get _ none utility _ j hj
      rw [List.get?_eq_get hjlt1] at h2
      injection h2
    rw [hgetIn] at hcol
    have hilt : i < utility.length := by rw [hlen]; exact hi
    have hrow : utility.get? i = some (utility.get ⟨i, hilt⟩) := List.get?_eq_get hilt
    have hrowD : (utility.get ⟨i, hilt⟩).getD j none = none := by
      unfold tableEntry at hcell
      rw [getD_of_get? [] hrow] at hcell
      exact hcell
    have hcolzero : (colsOut.get ⟨j, hjlt2⟩).get? i = some PEntry.zero := by
      apply hcol
      have hmapi : (List.map (fun r => r.getD j none) utility).get? i
          = some ((utility.get ⟨i, hilt⟩).getD j none) := by
        rw [List.get?_map, hrow]
        rfl
      rw [hmapi, hrowD]
    unfold tableEntry
    rw [getD_of_get? [] (transposeD_get hi)]
    have hjmap : (colsOut.map (fun c => c.getD i PEntry.zero)).get? j
        = some ((colsOut.get ⟨j, hjlt2⟩).getD i PEntry.zero) := by
      rw [List.get?_map, List.get?_eq_get hjlt2]
      rfl
    rw [getD_of_get? PEntry.zero hjmap, getD_of_get? PEntry.zero hcolzero]

/-- The states a `PragmaticSpeaker_obs` can be in: freshly constructed, or
the state left by any `update_and_speak` call (successful or not) on a
reachable state. -/
inductive ReachablePragSpeaker : PragSpeakerState → Prop where
  | init (w : World) (omega psi : String) (updateInternal : Bool)
      (alpha : PyAlpha) (beta : ℚ) (ib : Option (List ℚ))
      (s : PragSpeakerState) :
      mkPragmaticSpeaker w omega psi updateInternal alpha beta ib = Except.ok s →
      ReachablePragSpeaker s
  | step (s : PragSpeakerState) (observation : Outcome) (g : Rng) :
      ReachablePragSpeaker s →
      ReachablePragSpeaker (s.updateAndSpeak observation g).2

/-- The invariant: the stored utility is the utility of the current embedded
listener state, and the stored probability table is zero at every literally
false cell. -/
def SpeakerInv (s : PragSpeakerState) : Prop :=
  s.utility = computeUtility s.world s.literalListener s.psi s.beta
  ∧ ∀ i j u O, (uttSpecs s.world.n).get? i = some u →
      s.world.possibleOutcomes.get? j = some O →
      truthVal s.world.n s.world.m u O = 0 →
      tableEntry PEntry.zero s.utteranceLogProbObs i j = PEntry.zero

/-- A literally false cell of any computed utility table is `-inf`. -/
theorem computeUtility_false_none {w : World} {listener : LiteralListenerState}
    {psi : String} {beta : ℚ} {i j : ℕ} {u : UttSpec} {O : Outcome}
    (hu : (uttSpecs w.n).get? i = some u)
    (hO : w.possibleOutcomes.get? j = some O)
    (hfalse : truthVal w.n w.m u O = 0) :
    tableEntry none (computeUtility w listener psi beta) i j = none := by
  rw [computeUtility_entry hu hO, if_pos hfalse]

theorem speakerInv_of_fresh {w : World} {listener : LiteralListenerState}
    {psi omega : String} {alpha : PyAlpha} {beta : ℚ} {ui : Bool}
    {sp : LiteralSpeakerState} {probs : List (List PEntry)}
    (hok : softmaxUtility w (computeUtility w listener psi beta) beta alpha
      = .ok probs) :
    SpeakerInv ⟨w, omega, psi, alpha, beta, ui, sp, listener,
      computeUtility w listener psi beta, probs⟩ := by
  refine ⟨rfl, ?_⟩
  intro i j u O hu hO hfalse
  have hi : i < (uttSpecs w.n).length := by
    have := List.get?_eq_some.mp hu
    rcases this with ⟨h, _⟩
    exact h
  have hj : j < w.possibleOutcomes.length := by
    rcases List.get?_eq_some.mp hO with ⟨h, _⟩
    exact h
  exact softmaxUtility_preserves_none hok hi hj
    (computeUtility_length w listener psi beta)
    (computeUtility_false_none hu hO hfalse)

theorem listenAndUpdate_error_state {l : LiteralListenerState} {u : String}
    {e : PyErr} (h : (l.listenAndUpdate u).1 = .error e) :
    (l.listenAndUpdate u).2 = l := by
  unfold LiteralListenerState.listenAndUpdate at h ⊢
  by_cases hm : u ∉ l.world.utterances
  · rw [if_pos hm]
  · rw [if_neg hm] at h
    cases h

theorem speakerInv_init {w : World} {omega psi : String} {ui : Bool}
    {alpha : PyAlpha} {beta : ℚ} {ib : Option (List ℚ)} {s : PragSpeakerState}
    (h : mkPragmaticSpeaker w omega psi ui alpha beta ib = Except.ok s) :
    SpeakerInv s := by
  unfold mkPragmaticSpeaker at h
  by_cases h1 : omega ∉ (["coop", "strat"] : List String)
  · rw [if_pos h1] at h; cases h
  · rw [if_neg h1] at h
    by_cases h2 : psi ∉ (["inf", "pers+", "pers-"] : List String)
    · rw [if_pos h2] at h; cases h
    · rw [if_neg h2] at h
      dsimp only at h
      cases hsp : mkLiteralSpeaker w ib with
      | error e => rw [hsp] at h; cases h
      | ok sp =>
        rw [hsp] at h
        cases hll : mkLiteralListener w ib with
        | error e => rw [hll] at h; cases h
        | ok ll =>
          rw [hll] at h
          dsimp only at h
          cases hsm : softmaxUtility w
              (computeUtility w ll (if omega = "coop" ∧ psi ≠ "inf" then "inf" else psi) beta)
              beta alpha with
          | error e => rw [hsm] at h; cases h
          | ok probs =>
            rw [hsm] at h
            cases h
            exact speakerInv_of_fresh hsm

theorem listenAndUpdate_error_pair {l l1 : LiteralListenerState} {u : String}
    {e : PyErr} (h : l.listenAndUpdate u = (.error e, l1)) : l1 = l := by
  unfold LiteralListenerState.listenAndUpdate at h
  by_cases hm : u ∉ l.world.utterances
  · rw [if_pos hm] at h
    injection h with h1 h2
    exact h2.symm
  · rw [if_neg hm] at h
    injection h with h1 h2
    cases h1

theorem speakerInv_step (s : PragSpeakerState) (observation : Outcome) (g : Rng)
    (hInv : SpeakerInv s) : SpeakerInv ((s.updateAndSpeak observation g).2) := by
  obtain ⟨hutil, hprobs⟩ := hInv
  unfold PragSpeakerState.updateAndSpeak
  split
  · exact ⟨hutil, hprobs⟩
  · dsimp only
    split
    · exact ⟨hutil, hprobs⟩
    · split
      · -- update_internal = True
        split
        · rename_i e l1 heq
          rw [listenAndUpdate_error_pair heq]
          exact ⟨hutil, hprobs⟩
        · rename_i a l1 heq
          split
          · -- softmax failed: fresh utility, stale probability table
            refine ⟨rfl, ?_⟩
            intro i j u2 O hu hO hfalse
            exact hprobs i j u2 O hu hO hfalse
          · rename_i probs2 hsm
            refine ⟨rfl, ?_⟩
            intro i j u2 O hu hO hfalse
            have hi : i < (uttSpecs s.world.n).length := by
              rcases List.get?_eq_some.mp hu with ⟨h, _⟩
              exact h
            have hj : j < s.world.possibleOutcomes.length := by
              rcases List.get?_eq_some.mp hO with ⟨h, _⟩
              exact h
            exact softmaxUtility_preserves_none hsm hi hj
              (computeUtility_length _ _ _ _)
              (computeUtility_false_none hu hO hfalse)
      · exact ⟨hutil, hprobs⟩

theorem speakerInv_reachable {s : PragSpeakerState}
    (h : ReachablePragSpeaker s) : SpeakerInv s := by
  induction h with
  | init w omega psi ui alpha beta ib s hmk => exact speakerInv_init hmk
  | step s observation g _ ih => exact speakerInv_step s observation g ih

/-- C5: in every reachable `PragmaticSpeaker_obs` state the utility table
is `-inf` at every literally false `(utterance, observation)` cell, and in
the mixed case (`psi` not `"inf"` and `beta` not 0) also at every cell
where the informativeness term or the persuasiveness term is `-inf` (zero
in linear space); consequently the utterance-given-observation probability
table gives zero probability to every literally false utterance. -/
theorem c5_utility_mask (s : PragSpeakerState) (h : ReachablePragSpeaker s)
    (i j : ℕ) (u : UttSpec) (O : Outcome)
    (hu : (uttSpecs s.world.n).get? i = some u)
    (hO : s.world.possibleOutcomes.get? j = some O) :
    (truthVal s.world.n s.world.m u O = 0 →
      tableEntry none s.utility i j = none
      ∧ tableEntry PEntry.zero s.utteranceLogProbObs i j = PEntry.zero)
    ∧ (s.psi ≠ "inf" → s.beta ≠ 0 →
      (logInfCellAt s.world s.literalListener.unCurrentLogBelief u O = 0
        ∨ persValueAt s.world s.literalListener.thetaLogPostUtterance s.psi i = 0) →
      tableEntry none s.utility i j = none) := by
  obtain ⟨hutil, hprobs⟩ := speakerInv_reachable h
  constructor
  · intro hfalse
    exact ⟨by rw [hutil]; exact computeUtility_false_none hu hO hfalse,
      hprobs i j u O hu hO hfalse⟩
  · intro hpsi hbeta himp
    rw [hutil, computeUtility_entry hu hO]
    by_cases hfalse : truthVal s.world.n s.world.m u O = 0
    · rw [if_pos hfalse]
    · rw [if_neg hfalse, if_neg hpsi, if_neg hbeta, if_pos himp]

/-- Extract the payload of an `ok`, with a default for the error case (only
used to name concrete witness states). -/
def exceptGetD (d : α) : Except ε α → α
  | .ok a => a
  | .error _ => d

def emptyWorld : World := ⟨1, 1, [], [], none⟩

def emptyLitSpeaker : LiteralSpeakerState := ⟨emptyWorld, []⟩

def emptyLitListener : LiteralListenerState := ⟨emptyWorld, [], emptyLitSpeaker, [], []⟩

def emptyPragSpeaker : PragSpeakerState :=
  ⟨emptyWorld, "", "", PyAlpha.fl 1, 0, false, emptyLitSpeaker, emptyLitListener, [], []⟩

/-- The `n = 1, m = 1` world, concretely. -/
def c5W : World := exceptGetD emptyWorld (mkWorld 1 1 none)

/-- A freshly constructed cooperative informative speaker on `c5W`. -/
def c5S : PragSpeakerState := exceptGetD emptyPragSpeaker
  (mkPragmaticSpeaker c5W "coop" "inf" false (PyAlpha.fl 1) 0 none)

/-- Witness for C5: on the fresh `c5S` speaker, the cell (utterance 0 =
"all,successful", observation 1 = `(1,0)`, zero successes) is literally
false and gets `-inf` utility and zero probability. -/
theorem c5_witness :
    mkWorld 1 1 none = Except.ok c5W ∧
    mkPragmaticSpeaker c5W "coop" "inf" false (PyAlpha.fl 1) 0 none = Except.ok c5S ∧
    (uttSpecs c5S.world.n).get? 0 = some (UttSpec.mk none "all" "successful") ∧
    c5S.world.possibleOutcomes.get? 1 = some [1, 0] ∧
    truthVal c5S.world.n c5S.world.m (UttSpec.mk none "all" "successful") [1, 0] = 0 ∧
    tableEntry none c5S.utility 0 1 = none ∧
    tableEntry PEntry.zero c5S.utteranceLogProbObs 0 1 = PEntry.zero := by
  have hmk : mkPragmaticSpeaker c5W "coop" "inf" false (PyAlpha.fl 1) 0 none
      = Except.ok c5S := by with_unfolding_all decide
  have h := c5_utility_mask c5S
    (ReachablePragSpeaker.init _ _ _ _ _ _ _ _ hmk) 0 1
    (UttSpec.mk none "all" "successful") [1, 0]
    (by with_unfolding_all decide) (by with_unfolding_all decide)
  exact ⟨by with_unfolding_all decide, hmk, by with_unfolding_all decide,
    by with_unfolding_all decide, by with_unfolding_all decide,
    (h.1 (by with_unfolding_all decide)).1,
    (h.1 (by with_unfolding_all decide)).2⟩

/-! ## Pragmatic listener (`rsa_optimal_exp_core.py:1676-2103`) -/

/-- Joint log-belief tensor over (theta, psi, alpha), linear space. -/
abbrev TPA := List (List (List ℚ))

/-- `_process_initial_beliefs`, per non-theta axis (psi, alpha): only the
axis length matters; the validation is the same as for the theta axis. -/
def processBeliefAxis (n : ℕ) (init : Option (List ℚ)) : Except PyErr (List ℚ) :=
  match init with
  | none => .ok ((List.range n).map (fun _ => 1 / (n : ℚ)))
  | some b =>
    if b.length ≠ n then
      .error (.valueError ("initial beliefs length must match the grid"))
    else if ¬ (∀ p ∈ b, 0 ≤ p ∧ p ≤ 1) then
      .error (.valueError ("All probabilities must be between 0 and 1"))
    else if b.sum ≠ 1 then
      .error (.valueError ("Probabilities must sum to 1"))
    else .ok b

/-- The joint prior: broadcast sum of the three axis log-priors (linear:
outer product). -/
def jointPrior (bt bp ba : List ℚ) : TPA :=
  bt.map (fun t => bp.map (fun p => ba.map (fun a => t * p * a)))

/-- Elementwise `likelihood + prior` over (utterance, theta, psi, alpha)
(linear: product), i.e. `_compute_theta_psi_alpha_log_post_utterance`. -/
def computePostTPA (lik : List TPA) (prior : TPA) : List TPA :=
  lik.map (fun utt =>
    List.zipWith (fun thetaRow priorTheta =>
      List.zipWith (fun psiRow priorPsi =>
        List.zipWith (· * ·) psiRow priorPsi) thetaRow priorTheta) utt prior)

/-- `_compute_utterance_log_likelihood_theta_psi_alpha`
(`rsa_optimal_exp_core.py:1888-1957`).  The loop body marginalizing each
speaker's `P(u|O)` table calls
`log_M_product(..., precise= precision)` where the name `precision` is not
defined anywhere in the module (its only other occurrence is inside a
warning string), so as soon as the (psi, alpha) loop has one iteration the
argument evaluation raises `NameError`, caught by the enclosing try and
re-raised as the RuntimeError below.  With an empty grid the loops do not
run and an empty table is returned. -/
def computeUttLogLikTPA (psiVals : List String) (alphaVals : List PyAlpha) :
    Except PyErr (List TPA) :=
  if psiVals = [] ∨ alphaVals = [] then .ok []
  else .error (.runtimeError
    ("Failed to compute utterance log likelihoods: name precision is not defined"))

/-- The level-n pragmatic listener state.  (Its constructor never actually
returns: see `c1_pragmatic_listener_init_fails`; the state type exists so
that `listen_and_update` can be analyzed as source code over arbitrary field
values.) -/
structure PragListenerState where
  world : World
  level : ℕ
  omega : String
  updateInternal : Bool
  alpha : PyAlpha
  beta : ℚ
  psiVals : List String
  alphaVals : List PyAlpha
  jointBelief : TPA
  speakers : List ((String × PyAlpha) × PragSpeakerState)
  uttLogLikTPA : List TPA
  postTable : List TPA
deriving Repr, DecidableEq

/-- The level-1 speaker population: one `PragmaticSpeaker_obs` per
(psi, alpha) pair; the first construction failure propagates. -/
def mkSpeakersLevel1 (w : World) (omega : String) (ui : Bool) (beta : ℚ)
    (ibt : Option (List ℚ)) :
    List (String × PyAlpha) →
      Except PyErr (List ((String × PyAlpha) × PragSpeakerState))
  | [] => .ok []
  | (psi, a) :: rest =>
    match mkPragmaticSpeaker w omega psi ui a beta ibt with
    | .error e => .error e
    | .ok sp =>
      match mkSpeakersLevel1 w omega ui beta ibt rest with
      | .error e => .error e
      | .ok sps => .ok (((psi, a), sp) :: sps)

/-- `PragmaticListener_obs_n.__init__`
(`rsa_optimal_exp_core.py:1690-1784`): validate `level` and `omega`
(ValueError, outside the try block); set up the psi and alpha grids; then,
inside the try block: the three axis priors, the speaker population (for
`level > 1` the dict comprehension evaluates the module-level name
`PragmaticSpeaker_obs_2plus`, which is defined nowhere, raising `NameError`
on a nonempty grid), the utterance likelihood table (which raises the
`precision` NameError on a nonempty grid), and the joint posterior.  Every
failure inside the try is re-raised as
"Failed to initialize pragmatic listener: ...". -/
def mkPragmaticListener (w : World) (level : ℕ) (omega : String)
    (updateInternal : Bool) (alpha : PyAlpha) (beta : ℚ)
    (ibTheta ibPsi : Option (List ℚ)) (alphaValsOpt : Option (List PyAlpha))
    (ibAlpha : Option (List ℚ)) : Except PyErr PragListenerState :=
  if level < 1 then
    .error (.valueError ("level must be an integer of at least 1"))
  else if omega ∉ (["coop", "strat"] : List String) then
    .error (.valueError ("omega must be one of the valid omega types"))
  else
    let psiVals : List String :=
      if omega = "strat" then ["pers-", "inf", "pers+"] else ["inf"]
    let alphaVals := alphaValsOpt.getD [alpha]
    match processInitialBeliefs w.thetaValues ibTheta with
    | .error e =>
      .error (.runtimeError ("Failed to initialize pragmatic listener: " ++ e.msg))
    | .ok bt =>
    match processBeliefAxis psiVals.length ibPsi with
    | .error e =>
      .error (.runtimeError ("Failed to initialize pragmatic listener: " ++ e.msg))
    | .ok bp =>
    match processBeliefAxis alphaVals.length ibAlpha with
    | .error e =>
      .error (.runtimeError ("Failed to initialize pragmatic listener: " ++ e.msg))
    | .ok ba =>
    let pairs := psiVals.flatMap (fun psi => alphaVals.map (fun a => (psi, a)))
    match (if level = 1 then mkSpeakersLevel1 w omega updateInternal beta ibTheta pairs
           else if pairs = [] then .ok []
           else .error (.nameError ("name PragmaticSpeaker_obs_2plus is not defined"))) with
    | .error e =>
      .error (.runtimeError ("Failed to initialize pragmatic listener: " ++ e.msg))
    | .ok speakers =>
    match computeUttLogLikTPA psiVals alphaVals with
    | .error e =>
      .error (.runtimeError ("Failed to initialize pragmatic listener: " ++ e.msg))
    | .ok lik =>
      .ok ⟨w, level, omega, updateInternal, alpha, beta, psiVals, alphaVals,
        jointPrior bt bp ba, speakers, lik, computePostTPA lik (jointPrior bt bp ba)⟩

/-- The `update_internal` speaker-population refresh of
`PragmaticListener_obs_n.listen_and_update` at level 1: push the utterance
into each speaker's literal listener and recompute its tables. -/
def updateSpeakersL1 (u : String) :
    List ((String × PyAlpha) × PragSpeakerState) →
      Except PyErr (List ((String × PyAlpha) × PragSpeakerState))
  | [] => .ok []
  | (key, sp) :: rest =>
    match sp.literalListener.listenAndUpdate u with
    | (.error e, _) => .error e
    | (.ok _, l1) =>
      let util := computeUtility sp.world l1 sp.psi sp.beta
      match softmaxUtility sp.world util sp.beta sp.alpha with
      | .error e => .error e
      | .ok probs =>
        match updateSpeakersL1 u rest with
        | .error e => .error e
        | .ok rs =>
          .ok ((key,
            { sp with
              literalListener := l1,
              utility := util,
              utteranceLogProbObs := probs }) :: rs)

/-- `PragmaticListener_obs_n.listen_and_update(utterance)`
(`rsa_optimal_exp_core.py:1993-2043`): the utterance-known validation comes
first, before any mutation, so an unknown utterance raises ValueError with
the state exactly as it was.  Otherwise the joint belief becomes the
posterior slice for the utterance; with `update_internal` the speaker
population is refreshed (at `level > 1` via the nonexistent
`pragmatic_listener` attribute → AttributeError) and the likelihood table
recomputed (which hits the `precision` NameError again on a nonempty grid);
the posterior table is rebuilt last.  Errors inside the try are wrapped as
"Failed to update Ln beliefs"; the partially mutated embedded speakers of a
failed refresh are not tracked beyond the joint belief (no claim depends on
them, and no such state is constructible: the constructor always raises). -/
def PragListenerState.listenAndUpdate (l : PragListenerState)
    (utterance : String) : Except PyErr Unit × PragListenerState :=
  if utterance ∉ l.world.utterances then
    (.error (.valueError ("Utterance not in known utterances")), l)
  else
    let idx := l.world.utterances.indexOf utterance
    let newJoint := l.postTable.getD idx []
    let l1 := { l with jointBelief := newJoint }
    if l.updateInternal then
      match (if l.level = 1 then updateSpeakersL1 utterance l.speakers
             else .error (.attributeError
               ("PragmaticSpeaker_obs has no attribute pragmatic_listener"))) with
      | .error e =>
        (.error (.runtimeError ("Failed to update Ln beliefs: " ++ e.msg)), l1)
      | .ok sps =>
        match computeUttLogLikTPA l.psiVals l.alphaVals with
        | .error e =>
          (.error (.runtimeError ("Failed to update Ln beliefs: " ++ e.msg)),
            { l1 with speakers := sps })
        | .ok lik =>
          (.ok (),
            { l1 with
              speakers := sps,
              uttLogLikTPA := lik,
              postTable := computePostTPA lik newJoint })
    else
      (.ok (), { l1 with postTable := computePostTPA l.uttLogLikTPA newJoint })

theorem pairs_ne_nil {psiVals : List String} {alphaVals : List PyAlpha}
    (hp : psiVals ≠ []) (ha : alphaVals ≠ []) :
    psiVals.flatMap (fun psi => alphaVals.map (fun a => (psi, a))) ≠ [] := by
  cases psiVals with
  | nil => exact absurd rfl hp
  | cons p ps =>
    cases alphaVals with
    | nil => exact absurd rfl ha
    | cons a as => simp

/-- C1: for every valid argument combination (level at least 1, omega in
coop/strat, any alpha, any nonempty alpha grid, any priors), constructing a
`PragmaticListener_obs_n` raises RuntimeError and never returns an
instance: the likelihood loop evaluates the undefined module name
`precision` (NameError), and for level above 1 the speaker comprehension
evaluates the undefined class name `PragmaticSpeaker_obs_2plus`; every
failure inside the constructor try block is re-raised as the
"Failed to initialize pragmatic listener" RuntimeError. -/
theorem c1_pragmatic_listener_init_fails (w : World) (level : ℕ)
    (omega : String) (ui : Bool) (alpha : PyAlpha) (beta : ℚ)
    (ibt ibp iba : Option (List ℚ)) (avOpt : Option (List PyAlpha))
    (hlevel : 1 ≤ level) (homega : omega = "coop" ∨ omega = "strat")
    (hgrid : ∀ la, avOpt = some la → la ≠ []) :
    ∃ rest, mkPragmaticListener w level omega ui alpha beta ibt ibp avOpt iba =
      Except.error (PyErr.runtimeError
        ("Failed to initialize pragmatic listener: " ++ rest)) := by
  have hpsi : (if omega = "strat" then (["pers-", "inf", "pers+"] : List String)
      else ["inf"]) ≠ [] := by
    split <;> simp
  have halpha : (avOpt.getD [alpha]) ≠ [] := by
    cases avOpt with
    | none => simp
    | some la => simpa using hgrid la rfl
  unfold mkPragmaticListener
  rw [if_neg (by omega)]
  rw [if_neg (by rcases homega with h | h <;> simp [h])]
  dsimp only
  cases hbt : processInitialBeliefs w.thetaValues ibt with
  | error e => exact ⟨e.msg, rfl⟩
  | ok bt =>
    dsimp only
    cases hbp : processBeliefAxis
        (if omega = "strat" then (["pers-", "inf", "pers+"] : List String)
          else ["inf"]).length ibp with
    | error e => exact ⟨e.msg, rfl⟩
    | ok bp =>
      dsimp only
      cases hba : processBeliefAxis (avOpt.getD [alpha]).length iba with
      | error e => exact ⟨e.msg, rfl⟩
      | ok ba =>
        dsimp only
        cases hsp : (if level = 1 then
            mkSpeakersLevel1 w omega ui beta ibt
              ((if omega = "strat" then (["pers-", "inf", "pers+"] : List String)
                else ["inf"]).flatMap (fun psi =>
                  (avOpt.getD [alpha]).map (fun a => (psi, a))))
          else if ((if omega = "strat" then (["pers-", "inf", "pers+"] : List String)
                else ["inf"]).flatMap (fun psi =>
                  (avOpt.getD [alpha]).map (fun a => (psi, a)))) = [] then .ok []
          else .error (.nameError ("name PragmaticSpeaker_obs_2plus is not defined"))) with
        | error e => exact ⟨e.msg, rfl⟩
        | ok sps =>
          dsimp only
          have hcomp : computeUttLogLikTPA
              (if omega = "strat" then (["pers-", "inf", "pers+"] : List String)
                else ["inf"]) (avOpt.getD [alpha]) =
              Except.error (PyErr.runtimeError
                ("Failed to compute utterance log likelihoods: name precision is not defined")) := by
            unfold computeUttLogLikTPA
            rw [if_neg (by push_neg; exact ⟨hpsi, halpha⟩)]
          rw [hcomp]
          exact ⟨_, rfl⟩

/-- Witness for C1: a level-1 cooperative listener with one alpha value; the
constructor returns the RuntimeError. -/
theorem c1_witness :
    (1 ≤ 1 ∧ ("coop" = "coop" ∨ "coop" = "strat")) ∧
    ∃ rest, mkPragmaticListener c5W 1 "coop" false (PyAlpha.fl 1) 0
        none none none none =
      Except.error (PyErr.runtimeError
        ("Failed to initialize pragmatic listener: " ++ rest)) :=
  ⟨⟨le_refl 1, Or.inl rfl⟩,
    c1_pragmatic_listener_init_fails c5W 1 "coop" false (PyAlpha.fl 1) 0
      none none none none (le_refl 1) (Or.inl rfl) (fun _ h => nomatch h)⟩

/-- C8: an observation not in the outcome list (LiteralSpeaker), or an
utterance not in the utterance list (LiteralListener,
PragmaticListener_obs_n), is rejected with ValueError by a validation that
precedes every mutation, so the agent state is returned exactly as it
was. -/
theorem c8_invalid_lookup_rejected (sp : LiteralSpeakerState) (obs : Outcome)
    (g : Rng) (ll : LiteralListenerState) (pl : PragListenerState)
    (u v : String) (hobs : obs ∉ sp.world.observations)
    (hu : u ∉ ll.world.utterances) (hv : v ∉ pl.world.utterances) :
    sp.updateAndSpeak obs g =
      (Except.error (PyErr.valueError ("Observation not supported by the world.")), sp)
    ∧ ll.listenAndUpdate u =
      (Except.error (PyErr.valueError ("Utterance not found in possible utterances.")), ll)
    ∧ pl.listenAndUpdate v =
      (Except.error (PyErr.valueError ("Utterance not in known utterances")), pl) := by
  refine ⟨?_, ?_, ?_⟩
  · unfold LiteralSpeakerState.updateAndSpeak
    rw [if_pos hobs]
  · unfold LiteralListenerState.listenAndUpdate
    rw [if_pos hu]
  · unfold PragListenerState.listenAndUpdate
    rw [if_pos hv]

/-- A pragmatic listener state with arbitrary field values (no constructed
instance exists, per C1; the `listen_and_update` method is still source
code whose validation behavior C8 asserts for whatever state the object
would hold). -/
def c8PL : PragListenerState :=
  ⟨c5W, 1, "coop", false, PyAlpha.fl 1, 0, ["inf"], [PyAlpha.fl 1], [], [], [], []⟩

theorem c8_witness :
    (([9, 9] : Outcome) ∉ (exceptGetD emptyLitSpeaker (mkLiteralSpeaker c5W none)).world.observations
      ∧ "bogus" ∉ (exceptGetD emptyLitListener (mkLiteralListener c5W none)).world.utterances
      ∧ "bogus" ∉ c8PL.world.utterances)
    ∧ ((exceptGetD emptyLitSpeaker (mkLiteralSpeaker c5W none)).updateAndSpeak [9, 9] ⟨0⟩ =
        (Except.error (PyErr.valueError ("Observation not supported by the world.")),
          exceptGetD emptyLitSpeaker (mkLiteralSpeaker c5W none))
      ∧ (exceptGetD emptyLitListener (mkLiteralListener c5W none)).listenAndUpdate "bogus" =
        (Except.error (PyErr.valueError ("Utterance not found in possible utterances.")),
          exceptGetD emptyLitListener (mkLiteralListener c5W none))
      ∧ c8PL.listenAndUpdate "bogus" =
        (Except.error (PyErr.valueError ("Utterance not in known utterances")), c8PL)) :=
  ⟨⟨by with_unfolding_all decide, by with_unfolding_all decide,
      by with_unfolding_all decide⟩,
    c8_invalid_lookup_rejected _ [9, 9] ⟨0⟩ _ c8PL "bogus" "bogus"
      (by with_unfolding_all decide) (by with_unfolding_all decide)
      (by with_unfolding_all decide)⟩

/-! Frame lemmas (C10). -/

theorem literal_updateAndSpeak_world (ls : LiteralSpeakerState) (o : Outcome)
    (g : Rng) : ((ls.updateAndSpeak o g).2).world = ls.world := by
  unfold LiteralSpeakerState.updateAndSpeak
  split
  · rfl
  · dsimp only
    split <;> rfl

theorem literalListener_listen_world (ll : LiteralListenerState) (u : String) :
    ((ll.listenAndUpdate u).2).world = ll.world := by
  unfold LiteralListenerState.listenAndUpdate
  split <;> rfl

theorem pragListener_listen_world (pl : PragListenerState) (u : String) :
    ((pl.listenAndUpdate u).2).world = pl.world := by
  unfold PragListenerState.listenAndUpdate
  split
  · rfl
  · dsimp only
    split
    · split
      · rfl
      · split <;> rfl
    · rfl

theorem pragSpeaker_updateAndSpeak_world (ps : PragSpeakerState) (o : Outcome)
    (g : Rng) : ((ps.updateAndSpeak o g).2).world = ps.world := by
  unfold PragSpeakerState.updateAndSpeak
  split
  · rfl
  · dsimp only
    split
    · rfl
    · split
      · split
        · rfl
        · split <;> rfl
      · rfl

/-- With `update_internal = False`, `update_and_speak` can only replace the
embedded literal speaker (whose own world reference is also untouched). -/
theorem updateAndSpeak_frame (s : PragSpeakerState) (observation : Outcome)
    (g : Rng) (hui : s.updateInternal = false) :
    ∃ sp1, (s.updateAndSpeak observation g).2 = { s with literalSpeaker := sp1 }
      ∧ sp1.world = s.literalSpeaker.world := by
  unfold PragSpeakerState.updateAndSpeak
  split
  · rename_i e sp1 heq
    refine ⟨sp1, rfl, ?_⟩
    have h2 := literal_updateAndSpeak_world s.literalSpeaker observation g
    rw [heq] at h2
    exact h2
  · rename_i u0 g1 sp1 heq
    have h2 := literal_updateAndSpeak_world s.literalSpeaker observation g
    rw [heq] at h2
    dsimp only
    split
    · exact ⟨sp1, rfl, h2⟩
    · split
      · rename_i h
        rw [hui] at h
        cases h
      · exact ⟨sp1, rfl, h2⟩

/-- C10: for a `PragmaticSpeaker_obs` with `update_internal = False`,
`update_and_speak` leaves the embedded literal listener, the utility table,
the probability table, the configuration, and the world untouched — only
the embedded literal speaker state (its belief vector; its world reference
is unchanged) is replaced; and no agent operation changes the world its
tables are derived from. -/
theorem c10_update_internal_false_frame (s : PragSpeakerState)
    (observation : Outcome) (g : Rng) (hui : s.updateInternal = false) :
    ((s.updateAndSpeak observation g).2.world = s.world
      ∧ (s.updateAndSpeak observation g).2.omega = s.omega
      ∧ (s.updateAndSpeak observation g).2.psi = s.psi
      ∧ (s.updateAndSpeak observation g).2.alpha = s.alpha
      ∧ (s.updateAndSpeak observation g).2.beta = s.beta
      ∧ (s.updateAndSpeak observation g).2.updateInternal = s.updateInternal
      ∧ (s.updateAndSpeak observation g).2.literalListener = s.literalListener
      ∧ (s.updateAndSpeak observation g).2.utility = s.utility
      ∧ (s.updateAndSpeak observation g).2.utteranceLogProbObs = s.utteranceLogProbObs
      ∧ (s.updateAndSpeak observation g).2.literalSpeaker.world = s.literalSpeaker.world)
    ∧ (∀ (ls : LiteralSpeakerState) (o : Outcome) (g2 : Rng),
        ((ls.updateAndSpeak o g2).2).world = ls.world)
    ∧ (∀ (ll : LiteralListenerState) (u : String),
        ((ll.listenAndUpdate u).2).world = ll.world)
    ∧ (∀ (ps : PragSpeakerState) (o : Outcome) (g2 : Rng),
        ((ps.updateAndSpeak o g2).2).world = ps.world)
    ∧ (∀ (pl : PragListenerState) (u : String),
        ((pl.listenAndUpdate u).2).world = pl.world) := by
  obtain ⟨sp1, hstate, hw⟩ := updateAndSpeak_frame s observation g hui
  refine ⟨?_, literal_updateAndSpeak_world, literalListener_listen_world,
    pragSpeaker_updateAndSpeak_world, pragListener_listen_world⟩
  rw [hstate]
  exact ⟨rfl, rfl, rfl, rfl, rfl, rfl, rfl, rfl, rfl, hw⟩

/-- Witness for C10 at the concrete `c5S` speaker (built with
`update_internal = False`). -/
theorem c10_witness :
    c5S.updateInternal = false ∧
    ((c5S.updateAndSpeak [0, 1] ⟨0⟩).2.world = c5S.world
      ∧ (c5S.updateAndSpeak [0, 1] ⟨0⟩).2.omega = c5S.omega
      ∧ (c5S.updateAndSpeak [0, 1] ⟨0⟩).2.psi = c5S.psi
      ∧ (c5S.updateAndSpeak [0, 1] ⟨0⟩).2.alpha = c5S.alpha
      ∧ (c5S.updateAndSpeak [0, 1] ⟨0⟩).2.beta = c5S.beta
      ∧ (c5S.updateAndSpeak [0, 1] ⟨0⟩).2.updateInternal = c5S.updateInternal
      ∧ (c5S.updateAndSpeak [0, 1] ⟨0⟩).2.literalListener = c5S.literalListener
      ∧ (c5S.updateAndSpeak [0, 1] ⟨0⟩).2.utility = c5S.utility
      ∧ (c5S.updateAndSpeak [0, 1] ⟨0⟩).2.utteranceLogProbObs = c5S.utteranceLogProbObs
      ∧ (c5S.updateAndSpeak [0, 1] ⟨0⟩).2.literalSpeaker.world = c5S.literalSpeaker.world)
    ∧ (∀ (ls : LiteralSpeakerState) (o : Outcome) (g2 : Rng),
        ((ls.updateAndSpeak o g2).2).world = ls.world)
    ∧ (∀ (ll : LiteralListenerState) (u : String),
        ((ll.listenAndUpdate u).2).world = ll.world)
    ∧ (∀ (ps : PragSpeakerState) (o : Outcome) (g2 : Rng),
        ((ps.updateAndSpeak o g2).2).world = ps.world)
    ∧ (∀ (pl : PragListenerState) (u : String),
        ((pl.listenAndUpdate u).2).world = pl.world) :=
  ⟨by with_unfolding_all decide,
    (c10_update_internal_false_frame c5S [0, 1] ⟨0⟩
      (by with_unfolding_all decide)).1,
    literal_updateAndSpeak_world, literalListener_listen_world,
    pragSpeaker_updateAndSpeak_world, pragListener_listen_world⟩

/-! ## Grid search over alpha (rsa_optimal_exp_fitting.log_likelihood_alpha_opt_utt_seq, grid_search=True)

The objective `log_likelihood_utt_seq(world, obs_seq, utt_seq, config)` is a
transcendental float (logs of softmax masses), so the fitting routine is
embedded parametrically: `llFun a` stands for the closure
`neg_log_likelihood` before negation and infinity-collapsing — an
`Except`-valued evaluation of the objective at temperature `a` into
`WithBot V` for an arbitrary linearly ordered value type `V` (`⊥` = -inf).
`neg_log_likelihood` maps an exception to `np.inf` and an `-inf` objective
to `np.inf`; the grid loop then records `-neg_log_likelihood(alpha)`, so
the recorded value is `⊥` on failure and the objective value otherwise —
that is `exceptBot (llFun a)`. The grid `alphas` is likewise a parameter
(NumPy lin/log spacing over floats). `np.argmax` returns the FIRST index
attaining the maximum and the code then reads `alphas[best_idx]` and
`log_likelihoods[best_idx]`; `bestPair` fuses that argmax with the two
indexings, keeping the earlier entry on ties exactly as `np.argmax` does.
The `grid_results` bookkeeping dict (the echoed grid and spacing label) is
omitted from the result record. -/

def exceptBot {V : Type} (e : Except String (WithBot V)) : WithBot V :=
  match e with
  | .error _ => ⊥
  | .ok v => v

def bestPair {V : Type} [LinearOrder V]
    (llFun : ℚ → Except String (WithBot V)) :
    List ℚ → (ℚ × WithBot V) → (ℚ × WithBot V)
  | [], best => best
  | a :: rest, best =>
    if best.2 < exceptBot (llFun a) then
      bestPair llFun rest (a, exceptBot (llFun a))
    else
      bestPair llFun rest best

structure FitResult (V : Type) where
  optimalAlpha : PyAlpha
  maxLogLikelihood : WithBot V
  continuousOptimalAlpha : ℚ
  continuousMaxLogLikelihood : WithBot V
  determLogLikelihood : Option (WithBot V)
  deriving DecidableEq

def logLikelihoodAlphaOptGrid {V : Type} [LinearOrder V]
    (alphas : List ℚ) (llFun : ℚ → Except String (WithBot V))
    (includeDeterm : Bool) (llDeterm : Except String (WithBot V)) :
    Except String (FitResult V) :=
  match alphas with
  | [] => .error ("attempt to get argmax of an empty sequence")
  | a0 :: rest =>
    let best := bestPair llFun rest (a0, exceptBot (llFun a0))
    let determLL : Option (WithBot V) :=
      if includeDeterm then some (exceptBot llDeterm) else none
    match determLL with
    | some d =>
      if best.2 < d then
        .ok ⟨PyAlpha.str "determ", d, best.1, best.2, some d⟩
      else
        .ok ⟨PyAlpha.fl best.1, best.2, best.1, best.2, some d⟩
    | none => .ok ⟨PyAlpha.fl best.1, best.2, best.1, best.2, none⟩

theorem bestPair_le {V : Type} [LinearOrder V]
    (llFun : ℚ → Except String (WithBot V)) :
    ∀ (l : List ℚ) (b : ℚ × WithBot V),
      b.2 ≤ (bestPair llFun l b).2 ∧
      ∀ a ∈ l, exceptBot (llFun a) ≤ (bestPair llFun l b).2
  | [], b => ⟨le_refl _, fun a ha => absurd ha (List.not_mem_nil a)⟩
  | a :: rest, b => by
    unfold bestPair
    split
    · rename_i h
      have ih := bestPair_le llFun rest (a, exceptBot (llFun a))
      refine ⟨le_trans (le_of_lt h) ih.1, ?_⟩
      intro x hx
      rcases List.mem_cons.mp hx with rfl | hx
      · exact ih.1
      · exact ih.2 x hx
    · rename_i h
      have ih := bestPair_le llFun rest b
      refine ⟨ih.1, ?_⟩
      intro x hx
      rcases List.mem_cons.mp hx with rfl | hx
      · exact le_trans (not_lt.mp h) ih.1
      · exact ih.2 x hx

theorem bestPair_mem {V : Type} [LinearOrder V]
    (llFun : ℚ → Except String (WithBot V)) :
    ∀ (l : List ℚ) (b : ℚ × WithBot V),
      bestPair llFun l b = b ∨
        ∃ a ∈ l, bestPair llFun l b = (a, exceptBot (llFun a))
  | [], _ => Or.inl rfl
  | a :: rest, b => by
    unfold bestPair
    split
    · rcases bestPair_mem llFun rest (a, exceptBot (llFun a)) with h | ⟨x, hx, h⟩
      · exact Or.inr ⟨a, List.mem_cons_self a rest, h⟩
      · exact Or.inr ⟨x, List.mem_cons_of_mem a hx, h⟩
    · rcases bestPair_mem llFun rest b with h | ⟨x, hx, h⟩
      · exact Or.inl h
      · exact Or.inr ⟨x, List.mem_cons_of_mem a hx, h⟩

/-- C9: when grid search succeeds, the returned `max_log_likelihood` is at
least the objective value at every grid alpha whose evaluation succeeded,
and at least the successful "determ" value when `include_determ` is set;
moreover it equals the recorded objective at the returned `optimal_alpha`
(a grid member when the optimum is a float, the "determ" evaluation when
the sentinel wins strictly). -/
theorem c9_grid_search_optimal {V : Type} [LinearOrder V]
    (alphas : List ℚ) (llFun : ℚ → Except String (WithBot V))
    (includeDeterm : Bool) (llDeterm : Except String (WithBot V))
    (r : FitResult V)
    (hok : logLikelihoodAlphaOptGrid alphas llFun includeDeterm llDeterm =
      Except.ok r) :
    (∀ a ∈ alphas, ∀ v, llFun a = Except.ok v → v ≤ r.maxLogLikelihood)
    ∧ (includeDeterm = true →
        ∀ v, llDeterm = Except.ok v → v ≤ r.maxLogLikelihood)
    ∧ (∀ x, r.optimalAlpha = PyAlpha.fl x →
        x ∈ alphas ∧ exceptBot (llFun x) = r.maxLogLikelihood)
    ∧ (r.optimalAlpha = PyAlpha.str "determ" →
        includeDeterm = true ∧ exceptBot llDeterm = r.maxLogLikelihood) := by
  cases alphas with
  | nil =>
    unfold logLikelihoodAlphaOptGrid at hok
    simp at hok
  | cons a0 rest =>
    unfold logLikelihoodAlphaOptGrid at hok
    dsimp only at hok
    have hle := bestPair_le llFun rest (a0, exceptBot (llFun a0))
    have hgrid : ∀ a ∈ a0 :: rest,
        exceptBot (llFun a) ≤ (bestPair llFun rest (a0, exceptBot (llFun a0))).2 := by
      intro a ha
      rcases List.mem_cons.mp ha with rfl | ha
      · exact hle.1
      · exact hle.2 a ha
    have hmem : ∃ a ∈ a0 :: rest,
        bestPair llFun rest (a0, exceptBot (llFun a0)) = (a, exceptBot (llFun a)) := by
      rcases bestPair_mem llFun rest (a0, exceptBot (llFun a0)) with h | ⟨x, hx, h⟩
      · exact ⟨a0, List.mem_cons_self a0 rest, h⟩
      · exact ⟨x, List.mem_cons_of_mem a0 hx, h⟩
    cases includeDeterm with
    | false =>
      rw [if_neg (by simp)] at hok
      dsimp only at hok
      injection hok with hok
      subst hok
      refine ⟨?_, ?_, ?_, ?_⟩
      · intro a ha v hv
        have := hgrid a ha
        rw [show exceptBot (llFun a) = v from by rw [hv]; rfl] at this
        exact this
      · intro h
        cases h
      · intro x hx
        dsimp only at hx ⊢
        obtain ⟨a, ha, hbest⟩ := hmem
        have hx2 : x = (bestPair llFun rest (a0, exceptBot (llFun a0))).1 := by
          injection hx with h
          exact h.symm
        subst hx2
        rw [hbest]
        exact ⟨ha, rfl⟩
      · intro hx
        exact absurd hx (by dsimp only; intro h; cases h)
    | true =>
      rw [if_pos rfl] at hok
      dsimp only at hok
      split at hok
      · rename_i hlt
        injection hok with hok
        subst hok
        refine ⟨?_, ?_, ?_, ?_⟩
        · intro a ha v hv
          have := hgrid a ha
          rw [show exceptBot (llFun a) = v from by rw [hv]; rfl] at this
          exact le_trans this (le_of_lt hlt)
        · intro _ v hv
          have hde : exceptBot llDeterm = v := by rw [hv]; rfl
          exact le_of_eq hde.symm
        · intro x hx
          exact absurd hx (by dsimp only; intro h; cases h)
        · intro _
          exact ⟨rfl, rfl⟩
      · rename_i hlt
        injection hok with hok
        subst hok
        refine ⟨?_, ?_, ?_, ?_⟩
        · intro a ha v hv
          have := hgrid a ha
          rw [show exceptBot (llFun a) = v from by rw [hv]; rfl] at this
          exact this
        · intro _ v hv
          rw [show exceptBot llDeterm = v from by rw [hv]; rfl] at hlt
          exact not_lt.mp hlt
        · intro x hx
          dsimp only at hx ⊢
          obtain ⟨a, ha, hbest⟩ := hmem
          have hx2 : x = (bestPair llFun rest (a0, exceptBot (llFun a0))).1 := by
            injection hx with h
            exact h.symm
          subst hx2
          rw [hbest]
          exact ⟨ha, rfl⟩
        · intro hx
          exact absurd hx (by dsimp only; intro h; cases h)

/-- Objective for the C9 witness: ll(1) = 5, ll(2) = 3, determ ll = 4. -/
def c9LLFun : ℚ → Except String (WithBot ℚ) :=
  fun a => if a = 1 then .ok ((5 : ℚ) : WithBot ℚ) else .ok ((3 : ℚ) : WithBot ℚ)

def c9Res : FitResult ℚ :=
  ⟨PyAlpha.fl 1, ((5 : ℚ) : WithBot ℚ), 1, ((5 : ℚ) : WithBot ℚ),
    some ((4 : ℚ) : WithBot ℚ)⟩

theorem c9_witness :
    (logLikelihoodAlphaOptGrid [1, 2] c9LLFun true
        (Except.ok ((4 : ℚ) : WithBot ℚ) : Except String (WithBot ℚ)) =
      Except.ok c9Res)
    ∧ ((∀ a ∈ ([1, 2] : List ℚ), ∀ v, c9LLFun a = Except.ok v →
          v ≤ c9Res.maxLogLikelihood)
      ∧ (true = true →
          ∀ v, (Except.ok ((4 : ℚ) : WithBot ℚ) : Except String (WithBot ℚ)) =
              Except.ok v →
            v ≤ c9Res.maxLogLikelihood)
      ∧ (∀ x, c9Res.optimalAlpha = PyAlpha.fl x →
          x ∈ ([1, 2] : List ℚ) ∧ exceptBot (c9LLFun x) = c9Res.maxLogLikelihood)
      ∧ (c9Res.optimalAlpha = PyAlpha.str "determ" →
          true = true ∧
            exceptBot (Except.ok ((4 : ℚ) : WithBot ℚ) : Except String (WithBot ℚ)) =
              c9Res.maxLogLikelihood)) :=
  ⟨by with_unfolding_all decide,
    c9_grid_search_optimal [1, 2] c9LLFun true (Except.ok ((4 : ℚ) : WithBot ℚ))
      c9Res (by with_unfolding_all decide)⟩

end PragNet
